import Mathlib

/-!
# Timely: the record store and its queries (src/storage.js, src/todo.js)

A shallow embedding of `StorageManager`, the class that keeps the scheduler's
three collections (events, tasks, settings) in the browser's `localStorage`
and answers the event queries, and of the task filter and task order of
`TodoManager`.

Modelling decisions, all taken from the source:

* Values are JSON values (`JVal`): what `JSON.parse` returns and what
  `JSON.stringify` writes back unchanged.  Numbers are integers; fractional
  and non-finite numbers are outside the model.
* `localStorage` is a `Medium`: one slot per storage key, and an oracle
  telling whether `localStorage.setItem(key, JSON.stringify(data))` completes
  or throws (quota exceeded, storage disabled, value not serialisable).
* A method that lets a `TypeError` escape returns `Except.error`.
* The host's `Date` is a `Platform`: its `Date.parse` and its offset from UTC.
  A time value is an integer number of milliseconds, `none` standing for NaN.
* `Array.prototype.sort` is the stable insertion sort, the result ECMAScript
  2019 prescribes for a consistent comparator.
-/

set_option autoImplicit false

namespace Timely

/-! ## JSON values and the JavaScript operators used by the store -/

/-- JSON values.  An object is an association list read last-wins, the way
`JSON.parse` reads a repeated key. -/
inductive JVal where
  | null
  | bool (b : Bool)
  | num (n : Int)
  | str (s : String)
  | arr (xs : List JVal)
  | obj (kvs : List (String × JVal))
  deriving Inhabited

/-- Errors a method can let escape. -/
inductive JsError where
  | typeError
  deriving DecidableEq, Repr

/-- JavaScript truthiness of a JSON value: `null`, `false`, `0` and `""` are
falsy, every array and object is truthy. -/
def truthy : JVal → Bool
  | .null => false
  | .bool b => b
  | .num n => n != 0
  | .str s => s != ""
  | .arr _ => true
  | .obj _ => true

/-- Truthiness of a value that may be `undefined` (`none`). -/
def truthyU : Option JVal → Bool
  | none => false
  | some v => truthy v

/-- The expression `a || b`. -/
def jsOr (a b : JVal) : JVal := if truthy a then a else b

/-- Own property `k` of an object, `none` when the object has no such key. -/
def getProp : List (String × JVal) → String → Option JVal
  | [], _ => none
  | (k', v) :: rest, k =>
    match getProp rest k with
    | some w => some w
    | none => if k' = k then some v else none

/-- The member access `v.name` for the names the store reads (`id`, `events`,
`tasks`, `settings`): a `TypeError` on `null`, the own property on an object,
and `undefined` (`none`) on numbers, booleans, strings and arrays, whose
prototypes define none of these names. -/
def getField (v : JVal) (name : String) : Except JsError (Option JVal) :=
  match v with
  | .null => .error .typeError
  | .obj kvs => .ok (getProp kvs name)
  | _ => .ok none

/-- Strict equality `a === b` between a value read from the store and a value
supplied by the caller.  Primitives compare by value; an array or object read
from the store is a fresh reference, equal to nothing the caller holds. -/
def strictEq : Option JVal → Option JVal → Bool
  | none, none => true
  | some .null, some .null => true
  | some (.bool a), some (.bool b) => a == b
  | some (.num a), some (.num b) => a == b
  | some (.str a), some (.str b) => a == b
  | _, _ => false

/-- The callback `record => record.id === id` of `findIndex` and `find`. -/
def hasId (record id : JVal) : Except JsError Bool :=
  match getField record "id" with
  | .error e => .error e
  | .ok v => .ok (strictEq v (some id))

/-- The callback `record => record.id !== id` of `filter`. -/
def lacksId (record id : JVal) : Except JsError Bool :=
  match getField record "id" with
  | .error e => .error e
  | .ok v => .ok (!strictEq v (some id))

/-- Whether a stored value is a record carrying the identifier `id`: the
callback of `findIndex` answers true on it. -/
def carries (record id : JVal) : Bool :=
  match hasId record id with
  | .ok true => true
  | _ => false

/-- Assignment `o[k] = v` on an object whose keys are distinct: an existing key
keeps its position, a new key is appended. -/
def setProp : List (String × JVal) → String → JVal → List (String × JVal)
  | [], k, v => [(k, v)]
  | (k', v') :: rest, k, v =>
    if k' = k then (k, v) :: rest else (k', v') :: setProp rest k v

/-- Own enumerable properties of a value, as an object spread copies them:
none for `null`, booleans and numbers, one per index for an array and for a
string (per character, which is per UTF-16 unit on the basic plane). -/
def ownProps : JVal → List (String × JVal)
  | .obj kvs => kvs
  | .arr xs => xs.enum.map (fun p => (toString p.1, p.2))
  | .str s => s.toList.enum.map (fun p => (toString p.1, JVal.str (String.singleton p.2)))
  | _ => []

/-- The object literal `{ ...a, ...b }`: a fresh object that receives the
properties of `a` and then those of `b`, later writes winning.  Keys that look
like array indices, which JavaScript enumerates ahead of the others, are not
reordered here; no field of a record is one. -/
def spread (a b : List (String × JVal)) : List (String × JVal) :=
  (a ++ b).foldl (fun acc kv => setProp acc kv.1 kv.2) []

/-- The loop of `Array.prototype.findIndex`: the index of the first element
the callback accepts, `none` for -1; an exception of the callback escapes. -/
def findIndexFrom (p : JVal → Except JsError Bool) : List JVal → Nat → Except JsError (Option Nat)
  | [], _ => .ok none
  | x :: rest, i =>
    match p x with
    | .error e => .error e
    | .ok true => .ok (some i)
    | .ok false => findIndexFrom p rest (i + 1)

/-- The call `xs.findIndex(p)`. -/
def findIndex (p : JVal → Except JsError Bool) (xs : List JVal) : Except JsError (Option Nat) :=
  findIndexFrom p xs 0

/-- The call `xs.filter(p)`; an exception of the callback escapes. -/
def filterE (p : JVal → Except JsError Bool) : List JVal → Except JsError (List JVal)
  | [] => .ok []
  | x :: rest =>
    match p x with
    | .error e => .error e
    | .ok keep =>
      match filterE p rest with
      | .error e => .error e
      | .ok ys => .ok (if keep then x :: ys else ys)

/-! ## The medium -/

/-- The three keys of `STORAGE_KEYS`. -/
inductive Key where
  | EVENTS
  | TASKS
  | SETTINGS
  deriving DecidableEq, Repr

/-- What `localStorage.getItem(key)` can find: nothing, a string that is empty
or is not JSON, or the text of a JSON document. -/
inductive Slot where
  | absent
  | garbage
  | doc (v : JVal)
  deriving Inhabited

/-- The browser's `localStorage` as far as the store sees it.  No method
writes a key twice in one call, so an oracle on the key and the data expresses
every pattern of completed and rejected writes of a call. -/
structure Medium where
  events : Slot
  tasks : Slot
  settings : Slot
  /-- Whether `setItem(key, JSON.stringify(data))` completes without throwing. -/
  accepts : Key → JVal → Bool

/-- The slot behind a key. -/
def Medium.slot (m : Medium) : Key → Slot
  | .EVENTS => m.events
  | .TASKS => m.tasks
  | .SETTINGS => m.settings

/-- The medium after a completed `setItem` / `removeItem` on one key. -/
def Medium.setSlot (m : Medium) (key : Key) (s : Slot) : Medium :=
  match key with
  | .EVENTS => { m with events := s }
  | .TASKS => { m with tasks := s }
  | .SETTINGS => { m with settings := s }

/-! ## StorageManager -/

/-- Source: `saveToStorage(key, data)`: true after a completed write, false
(and nothing written) when the write throws. -/
def saveToStorage (m : Medium) (key : Key) (data : JVal) : Bool × Medium :=
  if m.accepts key data then (true, m.setSlot key (.doc data)) else (false, m)

/-- Source: `getFromStorage(key)`: the parsed document, `null` for a missing
key, an empty string or text that does not parse. -/
def getFromStorage (m : Medium) (key : Key) : JVal :=
  match m.slot key with
  | .doc v => v
  | _ => .null

def saveEvents (m : Medium) (events : JVal) : Bool × Medium :=
  saveToStorage m .EVENTS events

def getEvents (m : Medium) : JVal :=
  jsOr (getFromStorage m .EVENTS) (.arr [])

def saveTasks (m : Medium) (tasks : JVal) : Bool × Medium :=
  saveToStorage m .TASKS tasks

def getTasks (m : Medium) : JVal :=
  jsOr (getFromStorage m .TASKS) (.arr [])

def saveSettings (m : Medium) (settings : JVal) : Bool × Medium :=
  saveToStorage m .SETTINGS settings

def getSettings (m : Medium) : JVal :=
  jsOr (getFromStorage m .SETTINGS) (.obj [])

/-- Source: `addEvent(event)`.  `events.push` is not callable unless the
stored value is an array. -/
def addEvent (m : Medium) (event : JVal) : Except JsError (Bool × Medium) :=
  match getEvents m with
  | .arr events => .ok (saveEvents m (.arr (events ++ [event])))
  | _ => .error .typeError

/-- Source: `updateEvent(eventId, updatedEvent)`. -/
def updateEvent (m : Medium) (eventId updatedEvent : JVal) : Except JsError (Bool × Medium) :=
  match getEvents m with
  | .arr events =>
    match findIndex (fun event => hasId event eventId) events with
    | .error e => .error e
    | .ok (some index) =>
      .ok (saveEvents m (.arr (events.set index
        (.obj (spread (ownProps (events.getD index .null)) (ownProps updatedEvent))))))
    | .ok none => .ok (false, m)
  | _ => .error .typeError

/-- Source: `deleteEvent(eventId)`: keeps the records with `event.id !== eventId`. -/
def deleteEvent (m : Medium) (eventId : JVal) : Except JsError (Bool × Medium) :=
  match getEvents m with
  | .arr events =>
    match filterE (fun event => lacksId event eventId) events with
    | .error e => .error e
    | .ok filteredEvents => .ok (saveEvents m (.arr filteredEvents))
  | _ => .error .typeError

/-- Source: `addTask(task)`. -/
def addTask (m : Medium) (task : JVal) : Except JsError (Bool × Medium) :=
  match getTasks m with
  | .arr tasks => .ok (saveTasks m (.arr (tasks ++ [task])))
  | _ => .error .typeError

/-- Source: `updateTask(taskId, updatedTask)`. -/
def updateTask (m : Medium) (taskId updatedTask : JVal) : Except JsError (Bool × Medium) :=
  match getTasks m with
  | .arr tasks =>
    match findIndex (fun task => hasId task taskId) tasks with
    | .error e => .error e
    | .ok (some index) =>
      .ok (saveTasks m (.arr (tasks.set index
        (.obj (spread (ownProps (tasks.getD index .null)) (ownProps updatedTask))))))
    | .ok none => .ok (false, m)
  | _ => .error .typeError

/-- Source: `deleteTask(taskId)`: keeps the records with `task.id !== taskId`. -/
def deleteTask (m : Medium) (taskId : JVal) : Except JsError (Bool × Medium) :=
  match getTasks m with
  | .arr tasks =>
    match filterE (fun task => lacksId task taskId) tasks with
    | .error e => .error e
    | .ok filteredTasks => .ok (saveTasks m (.arr filteredTasks))
  | _ => .error .typeError

/-- The object literal written by `initializeStorage` for the settings. -/
def defaultSettings : JVal :=
  .obj [("theme", .str "light"), ("defaultReminderTime", .num 15), ("notifications", .bool true)]

/-- Source: `initializeStorage()`: three guarded writes, each guard being the
negation of a getter's result. -/
def initializeStorage (m : Medium) : Medium :=
  let m1 := if !truthy (getEvents m) then (saveEvents m (.arr [])).2 else m
  let m2 := if !truthy (getTasks m1) then (saveTasks m1 (.arr [])).2 else m1
  if !truthy (getSettings m2) then (saveSettings m2 defaultSettings).2 else m2

/-- Source: the constructor of `StorageManager`, which runs `initializeStorage`
on the ambient `localStorage`. -/
def newStorageManager (m : Medium) : Medium := initializeStorage m

/-- Source: `exportData()`; `exportDate` is the caller's clock reading
`new Date().toISOString()`. -/
def exportData (m : Medium) (exportDate : String) : JVal :=
  .obj [("events", getEvents m), ("tasks", getTasks m), ("settings", getSettings m),
    ("exportDate", .str exportDate)]

/-- Source: `importData(data)`.  The results of the three saves are dropped;
the `catch` is reached only by a `TypeError` of a member access on `data`. -/
def importData (m : Medium) (data : JVal) : Bool × Medium :=
  match getField data "events" with
  | .error _ => (false, m)
  | .ok events =>
    let m1 := if truthyU events then (saveEvents m (events.getD .null)).2 else m
    match getField data "tasks" with
    | .error _ => (false, m1)
    | .ok tasks =>
      let m2 := if truthyU tasks then (saveTasks m1 (tasks.getD .null)).2 else m1
      match getField data "settings" with
      | .error _ => (false, m2)
      | .ok settings =>
        let m3 := if truthyU settings then (saveSettings m2 (settings.getD .null)).2 else m2
        (true, m3)

/-- Source: `clearAllData()`: three `removeItem` calls, which do not throw, then
`initializeStorage`, which catches what its writes throw. -/
def clearAllData (m : Medium) : Bool × Medium :=
  let m1 := m.setSlot .EVENTS .absent
  let m2 := m1.setSlot .TASKS .absent
  let m3 := m2.setSlot .SETTINGS .absent
  (true, initializeStorage m3)

/-! ## The two record collections, addressed the way the specification does -/

/-- The collections that hold records. -/
inductive Collection where
  | events
  | tasks
  deriving DecidableEq, Repr

/-- Storage key of a collection. -/
def Collection.key : Collection → Key
  | .events => .EVENTS
  | .tasks => .TASKS

/-- The call `get(collection)`: `getEvents` or `getTasks`. -/
def get (c : Collection) (m : Medium) : JVal :=
  match c with
  | .events => getEvents m
  | .tasks => getTasks m

/-- The call `add(collection, record)`: `addEvent` or `addTask`. -/
def add (c : Collection) (m : Medium) (record : JVal) : Except JsError (Bool × Medium) :=
  match c with
  | .events => addEvent m record
  | .tasks => addTask m record

/-- The call `update(collection, id, partialFields)`: `updateEvent` or `updateTask`. -/
def update (c : Collection) (m : Medium) (id partialFields : JVal) :
    Except JsError (Bool × Medium) :=
  match c with
  | .events => updateEvent m id partialFields
  | .tasks => updateTask m id partialFields

/-- The call `deleteById(collection, id)`: `deleteEvent` or `deleteTask`. -/
def deleteById (c : Collection) (m : Medium) (id : JVal) : Except JsError (Bool × Medium) :=
  match c with
  | .events => deleteEvent m id
  | .tasks => deleteTask m id

/-! ## Sample media -/

/-- A medium with no key set whose writes all complete. -/
def emptyMedium : Medium :=
  { events := .absent, tasks := .absent, settings := .absent, accepts := fun _ _ => true }

/-- A medium with no key set that rejects every write (storage disabled or
quota exhausted). -/
def fullMedium : Medium :=
  { events := .absent, tasks := .absent, settings := .absent, accepts := fun _ _ => false }

/-- A medium whose events key holds the given sequence, the other keys
unset; every write completes or every write is rejected, by `accepting`. -/
def mediumWithEvents (events : List JVal) (accepting : Bool) : Medium :=
  { events := .doc (.arr events), tasks := .absent, settings := .absent,
    accepts := fun _ _ => accepting }

/-- A stored event. -/
def standup : JVal :=
  .obj [("id", .str "e1"), ("title", .str "Standup"), ("isCompleted", .bool true)]

/-- Another stored event. -/
def review : JVal :=
  .obj [("id", .str "e2"), ("title", .str "Review"), ("isCompleted", .bool false)]

/-- The slot of a collection after an import whose writes complete: the value
of the field when the field is there and truthy, the old slot otherwise. -/
def slotAfterImport (field : Option JVal) (old : Slot) : Slot :=
  match field with
  | some v => if truthy v then .doc v else old
  | none => old

/-! ## Strings, numbers and dates -/

mutual
/-- The conversion `String(v)` of a JSON value, as a template literal and a
computed property key apply it.  A number prints in decimal, as JavaScript
prints an integer below 10^21 in size. -/
def toStr : JVal → String
  | .null => "null"
  | .bool b => if b then "true" else "false"
  | .num n => toString n
  | .str s => s
  | .arr xs => joinStr xs
  | .obj _ => "[object Object]"
/-- The text of `xs.join(",")`. -/
def joinStr : List JVal → String
  | [] => ""
  | [x] => elemStr x
  | x :: y :: rest => elemStr x ++ "," ++ joinStr (y :: rest)
/-- The text of one element inside `join`: empty for `null`. -/
def elemStr : JVal → String
  | .null => ""
  | .bool b => if b then "true" else "false"
  | .num n => toString n
  | .str s => s
  | .arr xs => joinStr xs
  | .obj _ => "[object Object]"
end

/-- The conversion `String(v)` of a value that may be `undefined`. -/
def toStrU : Option JVal → String
  | none => "undefined"
  | some v => toStr v

/-- The member access `v.name` on a value that is not `null`: the result part
of `getField`. -/
def prop (v : JVal) (name : String) : Option JVal :=
  match v with
  | .obj kvs => getProp kvs name
  | _ => none

/-- A callback that starts with a member access on its argument: a
`TypeError` on `null`, the pure rest on every other value. -/
def onRecord {α : Type} (f : JVal → α) (v : JVal) : Except JsError α :=
  match v with
  | .null => .error .typeError
  | _ => .ok (f v)

/-- The host's `Date`, as far as the queries use it.  A time value is a
number of milliseconds since the epoch; `none` stands for `NaN`, the time
value of an Invalid Date. -/
structure Platform where
  /-- The function `Date.parse` on the text of a date. -/
  parse : String → Option Int
  /-- Minutes that local time is ahead of UTC (one fixed offset, no daylight
  saving). -/
  tzOffset : Int

/-- Milliseconds in a day. -/
def msPerDay : Int := 86400000

/-- The largest time value of a Date. -/
def maxTime : Int := 8640000000000000

/-- The time value of `new Date(v)` for a value `v` that is not a Date: NaN
for `undefined`, the number itself (clipped) for a number, 0 for `null`, 0 or
1 for a boolean, `Date.parse` of the text for a string and, through its text,
for an array or object. -/
def newDate (pf : Platform) : Option JVal → Option Int
  | none => none
  | some .null => some 0
  | some (.bool b) => some (if b then 1 else 0)
  | some (.num n) => if -maxTime ≤ n ∧ n ≤ maxTime then some n else none
  | some (.str s) => pf.parse s
  | some (.arr xs) => pf.parse (toStr (.arr xs))
  | some (.obj kvs) => pf.parse (toStr (.obj kvs))

/-- The method `toDateString()`.  Its text names the local calendar day of the
time value, or is "Invalid Date"; two such texts are equal exactly when the
days, counted here from 1970-01-01, are: `none` stands for "Invalid Date". -/
def toDateString (pf : Platform) (t : Option Int) : Option Int :=
  t.map (fun ms => (ms + pf.tzOffset * 60000) / msPerDay)

/-- The comparison `a > b` of two time values: false when one is NaN. -/
def gtNum : Option Int → Option Int → Bool
  | some x, some y => decide (y < x)
  | _, _ => false

/-- The comparison `a < b` of two time values: false when one is NaN. -/
def ltNum : Option Int → Option Int → Bool
  | some x, some y => decide (x < y)
  | _, _ => false

/-- The difference `a - b` of two numbers: NaN when one is NaN. -/
def subNum : Option Int → Option Int → Option Int
  | some x, some y => some (x - y)
  | _, _ => none

/-- The abstract operation SortCompare on the result of a comparator: NaN
counts as +0. -/
def sortCompare (v : Option Int) : Int := v.getD 0

/-- The call `xs.sort(comparefn)` on an array of JSON values.  ECMAScript 2019
requires the sort to be stable, so for a consistent comparator the result is
the one list that is sorted, stable and a permutation of `xs`: the stable
insertion sort computes it.  For a comparator that is not consistent the
standard leaves the order to the engine; the model is then the insertion
sort. -/
def arraySort (comparefn : JVal → JVal → Option Int) (xs : List JVal) : List JVal :=
  xs.insertionSort (fun a b => sortCompare (comparefn a b) ≤ 0)

/-! ## Event queries (src/storage.js) -/

/-- What a caller hands to `getEventsByDate`: a Date object, given by its time
value, or a JSON value such as the text of a date. -/
inductive DateArg where
  | dateObject (t : Option Int)
  | value (v : JVal)

/-- The time value of `new Date(date)` for an argument of `getEventsByDate`. -/
def newDateOf (pf : Platform) : DateArg → Option Int
  | .dateObject t => t
  | .value v => newDate pf (some v)

/-- Source: `getEventsByDate(date)`. -/
def getEventsByDate (pf : Platform) (m : Medium) (date : DateArg) :
    Except JsError (List JVal) :=
  match getEvents m with
  | .arr events =>
    let targetDate := toDateString pf (newDateOf pf date)
    filterE (onRecord (fun event =>
      decide (toDateString pf (newDate pf (prop event "date")) = targetDate))) events
  | _ => .error .typeError

/-- The time value of ``new Date(`${event.date} ${event.time}`)``. -/
def eventDateTime (pf : Platform) (event : JVal) : Option Int :=
  pf.parse (toStrU (prop event "date") ++ " " ++ toStrU (prop event "time"))

/-- The filter of `getUpcomingEvents`: `eventDateTime > now && !event.isCompleted`. -/
def isUpcoming (pf : Platform) (now : Int) (event : JVal) : Bool :=
  gtNum (eventDateTime pf event) (some now) && !truthyU (prop event "isCompleted")

/-- The filter of `getAttendedEvents`: `eventDateTime < now || event.isCompleted`. -/
def isAttended (pf : Platform) (now : Int) (event : JVal) : Bool :=
  ltNum (eventDateTime pf event) (some now) || truthyU (prop event "isCompleted")

/-- Source: `getUpcomingEvents()`; `now` is the time value of `new Date()`.
The comparator `dateA - dateB` runs on records the filter has read. -/
def getUpcomingEvents (pf : Platform) (m : Medium) (now : Int) : Except JsError (List JVal) :=
  match getEvents m with
  | .arr events =>
    match filterE (onRecord (isUpcoming pf now)) events with
    | .error e => .error e
    | .ok kept =>
      .ok (arraySort (fun a b => subNum (eventDateTime pf a) (eventDateTime pf b)) kept)
  | _ => .error .typeError

/-- Source: `getAttendedEvents()`, with the comparator `dateB - dateA`. -/
def getAttendedEvents (pf : Platform) (m : Medium) (now : Int) : Except JsError (List JVal) :=
  match getEvents m with
  | .arr events =>
    match filterE (onRecord (isAttended pf now)) events with
    | .error e => .error e
    | .ok kept =>
      .ok (arraySort (fun a b => subNum (eventDateTime pf b) (eventDateTime pf a)) kept)
  | _ => .error .typeError

/-! ## Task filters and task order (src/todo.js) -/

/-- The object `currentFilters` of `TodoManager`. -/
structure Filters where
  category : String
  priority : String
  status : String

/-- The callback of `applyFilters`, statement by statement: each `if` reads a
member of the task only when the filter before the `&&` is set. -/
def passesFilters (f : Filters) (task : JVal) : Except JsError Bool :=
  match (if f.category != "all"
      then onRecord (fun t => !strictEq (prop t "category") (some (.str f.category))) task
      else .ok false) with
  | .error e => .error e
  | .ok true => .ok false
  | .ok false =>
    match (if f.priority != "all"
        then onRecord (fun t => !strictEq (prop t "priority") (some (.str f.priority))) task
        else .ok false) with
    | .error e => .error e
    | .ok true => .ok false
    | .ok false =>
      match (if f.status == "completed"
          then onRecord (fun t => !truthyU (prop t "isCompleted")) task
          else .ok false) with
      | .error e => .error e
      | .ok true => .ok false
      | .ok false =>
        match (if f.status == "pending"
            then onRecord (fun t => truthyU (prop t "isCompleted")) task
            else .ok false) with
        | .error e => .error e
        | .ok true => .ok false
        | .ok false => .ok true

/-- Source: `applyFilters(tasks)` under the filters `f`. -/
def applyFilters (f : Filters) (tasks : List JVal) : Except JsError (List JVal) :=
  filterE (passesFilters f) tasks

/-- The lookup `priorityOrder[key]` in `{ high: 3, medium: 2, low: 1 }`, as a
number: NaN for every other key, whether it finds nothing or a member of
`Object.prototype`. -/
def priorityOrder (key : String) : Option Int :=
  if key = "high" then some 3
  else if key = "medium" then some 2
  else if key = "low" then some 1
  else none

/-- The comparator of `sortTasks`, on two tasks that are not `null`. -/
def compareTasks (pf : Platform) (a b : JVal) : Option Int :=
  if !strictEq (prop a "isCompleted") (prop b "isCompleted") then
    some (if truthyU (prop a "isCompleted") then 1 else -1)
  else
    let priorityDiff := subNum (priorityOrder (toStrU (prop b "priority")))
      (priorityOrder (toStrU (prop a "priority")))
    if priorityDiff ≠ some 0 then priorityDiff
    else if truthyU (prop a "dueDate") && truthyU (prop b "dueDate") then
      subNum (newDate pf (prop a "dueDate")) (newDate pf (prop b "dueDate"))
    else if truthyU (prop a "dueDate") && !truthyU (prop b "dueDate") then some (-1)
    else if !truthyU (prop a "dueDate") && truthyU (prop b "dueDate") then some 1
    else subNum (newDate pf (prop b "createdDate")) (newDate pf (prop a "createdDate"))

/-- Whether a value is `null`. -/
def isNull : JVal → Bool
  | .null => true
  | _ => false

/-- Source: `sortTasks(tasks)`.  A sort of two or more elements hands every
element to the comparator, whose first member access throws on `null`; a
shorter array is returned without a call. -/
def sortTasks (pf : Platform) (tasks : List JVal) : Except JsError (List JVal) :=
  if 2 ≤ tasks.length ∧ tasks.any isNull = true then .error .typeError
  else .ok (arraySort (compareTasks pf) tasks)

/-! ## A sample host -/

/-- The number written by a run of decimal digits, `none` when a character is
not a digit. -/
def digitsValue : List Char → Nat → Option Nat
  | [], acc => some acc
  | c :: cs, acc => if c.isDigit then digitsValue cs (acc * 10 + (c.toNat - 48)) else none

/-- Days from 1970-01-01 to the given day of the proleptic Gregorian
calendar. -/
def daysFromCivil (y m d : Int) : Int :=
  let y1 := if m ≤ 2 then y - 1 else y
  let era := y1 / 400
  let yoe := y1 - era * 400
  let mp := (m + 9) % 12
  let doy := (153 * mp + 2) / 5 + d - 1
  let doe := yoe * 365 + yoe / 4 - yoe / 100 + doy
  era * 146097 + doe - 719468

/-- The day named by the ten characters `YYYY-MM-DD`, counted from
1970-01-01. -/
def civilDay (cs : List Char) : Option Int :=
  match cs with
  | [y1, y2, y3, y4, '-', m1, m2, '-', d1, d2] =>
    match digitsValue [y1, y2, y3, y4] 0, digitsValue [m1, m2] 0, digitsValue [d1, d2] 0 with
    | some y, some m, some d =>
      if 1 ≤ m ∧ m ≤ 12 ∧ 1 ≤ d ∧ d ≤ 31 then some (daysFromCivil y m d) else none
    | _, _, _ => none
  | _ => none

/-- The minute of the day named by the five characters `HH:MM`. -/
def clockMinutes (cs : List Char) : Option Int :=
  match cs with
  | [h1, h2, ':', n1, n2] =>
    match digitsValue [h1, h2] 0, digitsValue [n1, n2] 0 with
    | some h, some n => if h ≤ 23 ∧ n ≤ 59 then some ((h : Int) * 60 + n) else none
    | _, _ => none
  | _ => none

/-- The millisecond of the day named by `HH:MM:SS.sssZ`, the tail of what
`toISOString()` writes. -/
def clockMillisZ (cs : List Char) : Option Int :=
  match cs with
  | [h1, h2, ':', n1, n2, ':', s1, s2, '.', f1, f2, f3, 'Z'] =>
    match digitsValue [h1, h2] 0, digitsValue [n1, n2] 0, digitsValue [s1, s2] 0,
      digitsValue [f1, f2, f3] 0 with
    | some h, some n, some s, some f =>
      if h ≤ 23 ∧ n ≤ 59 ∧ s ≤ 59 then some ((((h : Int) * 60 + n) * 60 + s) * 1000 + f)
      else none
    | _, _, _, _ => none
  | _ => none

/-- Sample `Date.parse` of a host whose local time is `tzOffset` minutes ahead
of UTC, on the three shapes the application writes: `YYYY-MM-DD` (read as
midnight UTC, as ECMAScript prescribes for a date without a time),
`YYYY-MM-DD HH:MM` (read as local time, as V8 and SpiderMonkey do) and the
`toISOString()` shape `YYYY-MM-DDTHH:MM:SS.sssZ` (UTC).  Every other text is
NaN on this host. -/
def hostParse (tzOffset : Int) (s : String) : Option Int :=
  match civilDay (s.toList.take 10), s.toList.drop 10 with
  | some day, [] => some (day * msPerDay)
  | some day, ' ' :: clock =>
    (clockMinutes clock).map (fun minutes => (day * 1440 + minutes - tzOffset) * 60000)
  | some day, 'T' :: clock => (clockMillisZ clock).map (fun ms => day * msPerDay + ms)
  | _, _ => none

/-- The sample host with the given offset. -/
def hostAt (tzOffset : Int) : Platform :=
  { parse := hostParse tzOffset, tzOffset := tzOffset }

/-- A host five hours behind UTC all year (Bogota, Lima). -/
def bogota : Platform := hostAt (-300)

/-- A host on UTC. -/
def utcHost : Platform := hostAt 0

/-- The time value of the Date built by `new Date(y, m - 1, d, h, n)` on a host:
the given local wall-clock minute. -/
def localTime (pf : Platform) (y m d h n : Int) : Int :=
  ((daysFromCivil y m d) * 1440 + h * 60 + n - pf.tzOffset) * 60000

/-- An event record as `saveEvent` stores it. -/
def eventRecord (id title date time : String) (isCompleted : Bool) : JVal :=
  .obj [("id", .str id), ("title", .str title), ("description", .str ""),
    ("date", .str date), ("time", .str time), ("type", .str "meeting"),
    ("reminderMinutes", .num 15), ("isCompleted", .bool isCompleted),
    ("createdDate", .str "2024-04-01T08:00:00.000Z")]

/-- A task record as `saveTask` stores it; `dueDate` is `null` when the form
field is empty. -/
def taskRecord (id title category priority : String) (dueDate : Option String)
    (isCompleted : Bool) (createdDate : String) : JVal :=
  .obj [("id", .str id), ("title", .str title), ("description", .str ""),
    ("category", .str category), ("priority", .str priority),
    ("dueDate", match dueDate with
      | some d => .str d
      | none => .null),
    ("isCompleted", .bool isCompleted), ("createdDate", .str createdDate)]

/-- Four stored events: one already past, one two days ahead, one completed,
and one a day ahead stored last. -/
def sampleEvents : List JVal :=
  [eventRecord "e1" "Standup" "2024-05-01" "09:00" false,
   eventRecord "e2" "Review" "2024-05-03" "10:00" false,
   eventRecord "e3" "Retro" "2024-05-04" "10:00" true,
   eventRecord "e4" "Demo" "2024-05-02" "08:00" false]

/-- Noon of 2024-05-01 on the UTC host. -/
def sampleNow : Int := localTime utcHost 2024 5 1 12 0

/-- The specification's test of `applyFilters`: the three conditions of the
filter triple, joined by "and". -/
def matchesFilters (f : Filters) (task : JVal) : Bool :=
  (f.category == "all" || strictEq (prop task "category") (some (.str f.category))) &&
  (f.priority == "all" || strictEq (prop task "priority") (some (.str f.priority))) &&
  (f.status == "all" || (f.status == "completed" && truthyU (prop task "isCompleted")) ||
    (f.status == "pending" && !truthyU (prop task "isCompleted")))

/-- Whether a task counts as completed: `task.isCompleted` is truthy. -/
def completedFlag (task : JVal) : Bool := truthyU (prop task "isCompleted")

/-- The rank `priorityOrder[task.priority]` of a task, NaN when the priority
is none of low, medium, high. -/
def rankOf (task : JVal) : Option Int := priorityOrder (toStrU (prop task "priority"))

/-- Whether a task has a due date: `task.dueDate` is truthy. -/
def hasDueDate (task : JVal) : Bool := truthyU (prop task "dueDate")

/-- The time value of `new Date(task.dueDate)`. -/
def dueTime (pf : Platform) (task : JVal) : Option Int := newDate pf (prop task "dueDate")

/-- The time value of `new Date(task.createdDate)`. -/
def createdTime (pf : Platform) (task : JVal) : Option Int :=
  newDate pf (prop task "createdDate")

/-- The two tasks of the specification's scenario and two more, in store
order; "today" is 2024-05-01. -/
def sampleTasks : List JVal :=
  [taskRecord "t1" "Walk dog" "home" "low" (some "2024-05-01") false "2024-04-28T08:00:00.000Z",
   taskRecord "t2" "Ship report" "work" "high" (some "2024-05-04") false
     "2024-04-29T08:00:00.000Z",
   taskRecord "t3" "File taxes" "work" "high" none true "2024-04-20T08:00:00.000Z",
   taskRecord "t4" "Plan sprint" "work" "medium" none false "2024-04-30T08:00:00.000Z"]

/-- A pending high-priority task due on 2024-05-10, created on 1 May. -/
def olderTask : JVal :=
  taskRecord "t1" "Book venue" "work" "high" (some "2024-05-10") false
    "2024-05-01T08:00:00.000Z"

/-- A pending high-priority task due on the same day, created on 2 May. -/
def newerTask : JVal :=
  taskRecord "t2" "Send invites" "work" "high" (some "2024-05-10") false
    "2024-05-02T08:00:00.000Z"

/-- Three pending high-priority tasks in store order: one without a due date,
one due on 2024-05-10 and one due on 2024-05-03. -/
def sameRankTasks : List JVal :=
  [taskRecord "t1" "Draft agenda" "work" "high" none false "2024-04-28T08:00:00.000Z",
   taskRecord "t2" "Book venue" "work" "high" (some "2024-05-10") false
     "2024-04-29T08:00:00.000Z",
   taskRecord "t3" "Send invites" "work" "high" (some "2024-05-03") false
     "2024-04-30T08:00:00.000Z"]

/-! ## Due-date tests of a task (src/todo.js) -/

/-- The time value of a Date after `setHours(0, 0, 0, 0)`: local midnight of
its local day. -/
def startOfLocalDay (pf : Platform) (t : Int) : Int :=
  (t + pf.tzOffset * 60000) / msPerDay * msPerDay - pf.tzOffset * 60000

/-- The number `Math.ceil(x / d)` for integers `x` and `d`. -/
def ceilDiv (x d : Int) : Int := -((-x) / d)

/-- Source: `isTaskOverdue(task)`; `now` is the time value of `new Date()`. -/
def isTaskOverdue (pf : Platform) (now : Int) (task : JVal) : Except JsError Bool :=
  onRecord (fun t =>
    if !truthyU (prop t "dueDate") || truthyU (prop t "isCompleted") then false
    else ltNum (newDate pf (prop t "dueDate")) (some (startOfLocalDay pf now))) task

/-- Source: `isTaskDueToday(task)`. -/
def isTaskDueToday (pf : Platform) (now : Int) (task : JVal) : Except JsError Bool :=
  onRecord (fun t =>
    if !truthyU (prop t "dueDate") || truthyU (prop t "isCompleted") then false
    else decide (toDateString pf (newDate pf (prop t "dueDate")) = toDateString pf (some now)))
    task

/-- Source: `isTaskDueSoon(task)`; a NaN `diffDays` fails both comparisons. -/
def isTaskDueSoon (pf : Platform) (now : Int) (task : JVal) : Except JsError Bool :=
  onRecord (fun t =>
    if !truthyU (prop t "dueDate") || truthyU (prop t "isCompleted") then false
    else
      match subNum (newDate pf (prop t "dueDate")) (some now) with
      | some diffTime =>
        decide (0 < ceilDiv diffTime (1000 * 60 * 60 * 24)) &&
          decide (ceilDiv diffTime (1000 * 60 * 60 * 24) ≤ 7)
      | none => false) task

/-! ## Reminders (src/notifications.js) -/

/-- What a poll sends: `sendEventReminder(event)` or
`sendOverdueNotification(event)`. -/
inductive Signal where
  | reminder (event : JVal)
  | overdue (event : JVal)

/-- The number `Math.floor(timeDiff / (1000 * 60))` for an event, NaN when the
event has no instant. -/
def minutesDiff (pf : Platform) (now : Int) (event : JVal) : Option Int :=
  (subNum (eventDateTime pf event) (some now)).map (fun timeDiff => timeDiff / (1000 * 60))

/-- The test `minutesDiff === event.reminderMinutes`. -/
def remindsAt (pf : Platform) (now : Int) (event : JVal) : Bool :=
  match minutesDiff pf now event with
  | some d => strictEq (some (.num d)) (prop event "reminderMinutes")
  | none => false

/-- The test `minutesDiff < 0 && Math.abs(minutesDiff) <= 60`. -/
def overdueAt (pf : Platform) (now : Int) (event : JVal) : Bool :=
  match minutesDiff pf now event with
  | some d => decide (d < 0) && decide (|d| ≤ 60)
  | none => false

/-- The body of the `forEach` in `checkEventReminders`, on one event. -/
def signalsFor (pf : Platform) (now : Int) (event : JVal) : List Signal :=
  if truthyU (prop event "isCompleted") then []
  else
    (if remindsAt pf now event then [Signal.reminder event] else []) ++
    (if overdueAt pf now event then [Signal.overdue event] else [])

/-- Source: `checkEventReminders()`.  The clock is read twice: `listedAt` inside
`getUpcomingEvents()` and `now` by the `new Date()` that follows. -/
def checkEventReminders (pf : Platform) (m : Medium) (listedAt now : Int) :
    Except JsError (List Signal) :=
  match getUpcomingEvents pf m listedAt with
  | .error e => .error e
  | .ok events => .ok (events.map (signalsFor pf now)).flatten

/-- The event of a reminder signal. -/
def Signal.reminded : Signal → Option JVal
  | .reminder event => some event
  | .overdue _ => none

/-- The event of an overdue signal. -/
def Signal.overdueEvent : Signal → Option JVal
  | .reminder _ => none
  | .overdue event => some event

/-! ## Completion toggle (src/todo.js) and theme toggle (src/app.js) -/

/-- The loop of `Array.prototype.find`: the first element the callback
accepts, `none` for `undefined`. -/
def findFirst (p : JVal → Except JsError Bool) : List JVal → Except JsError (Option JVal)
  | [] => .ok none
  | x :: rest =>
    match p x with
    | .error e => .error e
    | .ok true => .ok (some x)
    | .ok false => findFirst p rest

/-- Source: `getTaskById(taskId)`. -/
def getTaskById (m : Medium) (taskId : JVal) : Except JsError (Option JVal) :=
  match getTasks m with
  | .arr tasks => findFirst (fun task => hasId task taskId) tasks
  | _ => .error .typeError

/-- The object literal that `toggleTaskCompletion` hands to `updateTask`:
`isCompleted: !task.isCompleted` and `completedDate`, the timestamp or
`null`. -/
def completionPatch (task : JVal) (timestamp : String) : List (String × JVal) :=
  [("isCompleted", .bool (!truthyU (prop task "isCompleted"))),
   ("completedDate",
    if !truthyU (prop task "isCompleted") then .str timestamp else .null)]

/-- Source: `toggleTaskCompletion(taskId)`; `timestamp` is the text of
`new Date().toISOString()`.  The result is the medium afterwards and what
`updateTask` returned, `none` when no task was found. -/
def toggleTaskCompletion (m : Medium) (taskId : JVal) (timestamp : String) :
    Except JsError (Option Bool × Medium) :=
  match getTaskById m taskId with
  | .error e => .error e
  | .ok task =>
    if truthyU task then
      match updateTask m taskId (.obj (completionPatch (task.getD .null) timestamp)) with
      | .error e => .error e
      | .ok (success, m') => .ok (some success, m')
    else .ok (none, m)

/-- Source: `updateSettings(newSettings)` of `StorageManager`. -/
def updateSettings (m : Medium) (newSettings : JVal) : Bool × Medium :=
  saveSettings m (.obj (spread (ownProps (getSettings m)) (ownProps newSettings)))

/-- The fields of `SchedulerApp` that the theme toggle reads and writes. -/
structure SchedulerApp where
  theme : JVal
  currentModule : String

/-- Source: `loadSettings()` of `SchedulerApp`: `settings.theme || 'light'`. -/
def SchedulerApp.loadSettings (app : SchedulerApp) (m : Medium) : SchedulerApp :=
  { app with theme := match prop (getSettings m) "theme" with
      | some v => jsOr v (.str "light")
      | none => .str "light" }

/-- The object literal of `SchedulerApp.saveSettings`. -/
def SchedulerApp.settingsPatch (app : SchedulerApp) : List (String × JVal) :=
  [("theme", app.theme), ("lastModule", .str app.currentModule), ("notifications", .bool true)]

/-- Source: `saveSettings()` of `SchedulerApp`. -/
def SchedulerApp.saveSettings (app : SchedulerApp) (m : Medium) : Bool × Medium :=
  updateSettings m (.obj app.settingsPatch)

/-- The object that `saveSettings()` of `SchedulerApp` hands to the store: the
stored settings with the object literal spread over them. -/
def SchedulerApp.mergedSettings (app : SchedulerApp) (m : Medium) : List (String × JVal) :=
  spread (ownProps (getSettings m)) app.settingsPatch

/-- The expression `this.theme === 'light' ? 'dark' : 'light'`. -/
def flippedTheme (theme : JVal) : JVal :=
  if strictEq (some theme) (some (.str "light")) then .str "dark" else .str "light"

/-- Source: `toggleTheme()`: the application afterwards, and the medium with
what the save returned. -/
def SchedulerApp.toggleTheme (app : SchedulerApp) (m : Medium) :
    SchedulerApp × Bool × Medium :=
  let app1 : SchedulerApp := { app with theme := flippedTheme app.theme }
  (app1, app1.saveSettings m)

/-- A medium whose tasks key holds the given sequence. -/
def mediumWithTasks (tasks : List JVal) (accepting : Bool) : Medium :=
  { events := .absent, tasks := .doc (.arr tasks), settings := .absent,
    accepts := fun _ _ => accepting }

/-- A medium whose settings key holds the given record. -/
def mediumWithSettings (settings : JVal) (accepting : Bool) : Medium :=
  { events := .absent, tasks := .absent, settings := .doc settings,
    accepts := fun _ _ => accepting }

/-- A settings record with the notifications switched off. -/
def quietSettings : JVal :=
  .obj [("theme", .str "light"), ("defaultReminderTime", .num 30),
    ("notifications", .bool false)]

/-- A pending task due on 2024-05-01. -/
def dueMayFirst : JVal :=
  taskRecord "t1" "Pay rent" "home" "high" (some "2024-05-01") false "2024-04-28T08:00:00.000Z"

/-- A pending task due on 2024-05-02. -/
def dueMaySecond : JVal :=
  taskRecord "t2" "Call bank" "home" "high" (some "2024-05-02") false "2024-04-28T09:00:00.000Z"

/-! ## Lemmas on the medium -/

theorem truthy_jsOr (a b : JVal) (hb : truthy b = true) : truthy (jsOr a b) = true := by
  unfold jsOr
  split <;> simp_all

theorem jsOr_of_truthy (a b : JVal) (ha : truthy a = true) : jsOr a b = a := by
  simp [jsOr, ha]

theorem truthy_getEvents (m : Medium) : truthy (getEvents m) = true :=
  truthy_jsOr _ _ rfl

theorem truthy_getTasks (m : Medium) : truthy (getTasks m) = true :=
  truthy_jsOr _ _ rfl

theorem truthy_getSettings (m : Medium) : truthy (getSettings m) = true :=
  truthy_jsOr _ _ rfl

theorem get_key (c : Collection) (m : Medium) :
    get c m = jsOr (getFromStorage m c.key) (.arr []) := by
  cases c <;> rfl

theorem getFromStorage_setSlot_same (m : Medium) (k : Key) (v : JVal) :
    getFromStorage (m.setSlot k (.doc v)) k = v := by
  cases k <;> rfl

theorem getFromStorage_setSlot_other (m : Medium) (k k' : Key) (s : Slot) (h : k ≠ k') :
    getFromStorage (m.setSlot k s) k' = getFromStorage m k' := by
  cases k <;> cases k' <;> first | rfl | exact absurd rfl h

theorem accepts_setSlot (m : Medium) (k : Key) (s : Slot) :
    (m.setSlot k s).accepts = m.accepts := by
  cases k <;> rfl

/-- Reading a record collection back after a write of a truthy value. -/
theorem get_after_write (c : Collection) (m : Medium) (v : JVal) (hv : truthy v = true) :
    get c (m.setSlot c.key (.doc v)) = v := by
  rw [get_key, getFromStorage_setSlot_same]
  exact jsOr_of_truthy _ _ hv

/-- The save behind a collection, in terms of the oracle. -/
theorem saveToStorage_accepted (m : Medium) (k : Key) (v : JVal) (h : m.accepts k v = true) :
    saveToStorage m k v = (true, m.setSlot k (.doc v)) := by
  simp [saveToStorage, h]

theorem saveToStorage_rejected (m : Medium) (k : Key) (v : JVal) (h : m.accepts k v = false) :
    saveToStorage m k v = (false, m) := by
  simp [saveToStorage, h]

/-! ## Lemmas on the array methods -/

theorem hasId_of_ne_null (x id : JVal) (hx : x ≠ .null) :
    hasId x id = .ok (carries x id) := by
  cases x with
  | null => exact absurd rfl hx
  | obj kvs =>
    simp only [carries, hasId, getField]
    cases strictEq (getProp kvs "id") (some id) <;> rfl
  | _ => rfl

/-- A value that carries an identifier is an object. -/
theorem obj_of_carries (x id : JVal) (h : carries x id = true) : ∃ kvs, x = .obj kvs := by
  cases x with
  | obj kvs => exact ⟨kvs, rfl⟩
  | _ => simp [carries, hasId, getField, strictEq] at h

theorem findIndexFrom_none (p : JVal → Except JsError Bool) (xs : List JVal) (i : Nat)
    (h : ∀ x ∈ xs, p x = .ok false) : findIndexFrom p xs i = .ok none := by
  induction xs generalizing i with
  | nil => rfl
  | cons x rest ih =>
    have hx : p x = .ok false := h x (List.mem_cons_self _ _)
    simp only [findIndexFrom, hx]
    exact ih (i + 1) (fun y hy => h y (List.mem_cons_of_mem _ hy))

theorem findIndexFrom_split (p : JVal → Except JsError Bool) (pre post : List JVal) (r : JVal)
    (i : Nat) (hpre : ∀ x ∈ pre, p x = .ok false) (hr : p r = .ok true) :
    findIndexFrom p (pre ++ r :: post) i = .ok (some (i + pre.length)) := by
  induction pre generalizing i with
  | nil => simp [findIndexFrom, hr]
  | cons x rest ih =>
    have hx : p x = .ok false := hpre x (List.mem_cons_self _ _)
    have ih1 := ih (i + 1) (fun y hy => hpre y (List.mem_cons_of_mem _ hy))
    rw [List.cons_append, findIndexFrom, hx]
    simp only [ih1, List.length_cons]
    congr 2
    omega

/-- A list holding a record with the identifier splits at the first such record. -/
theorem exists_first_carrier (id : JVal) (xs : List JVal) (h : ∃ x ∈ xs, carries x id = true) :
    ∃ pre r post, xs = pre ++ r :: post ∧ (∀ x ∈ pre, carries x id = false) ∧
      carries r id = true := by
  induction xs with
  | nil => obtain ⟨x, hx, _⟩ := h; cases hx
  | cons y rest ih =>
    by_cases hy : carries y id = true
    · exact ⟨[], y, rest, rfl, by simp, hy⟩
    · obtain ⟨x, hx, hc⟩ := h
      have hrest : ∃ x ∈ rest, carries x id = true := by
        rcases List.mem_cons.mp hx with rfl | hx
        · exact absurd hc hy
        · exact ⟨x, hx, hc⟩
      obtain ⟨pre, r, post, hsplit, hpre, hr⟩ := ih hrest
      refine ⟨y :: pre, r, post, by simp [hsplit], ?_, hr⟩
      intro x hx
      rcases List.mem_cons.mp hx with rfl | hx
      · simpa using hy
      · exact hpre x hx

theorem lacksId_of_ne_null (x id : JVal) (hx : x ≠ .null) :
    lacksId x id = .ok (!carries x id) := by
  cases x with
  | null => exact absurd rfl hx
  | obj kvs =>
    simp only [carries, hasId, lacksId, getField]
    cases strictEq (getProp kvs "id") (some id) <;> rfl
  | _ => rfl

theorem filterE_of_ne_null (id : JVal) (xs : List JVal) (h : ∀ x ∈ xs, x ≠ .null) :
    filterE (fun x => lacksId x id) xs = .ok (xs.filter (fun x => !carries x id)) := by
  induction xs with
  | nil => rfl
  | cons x rest ih =>
    have hx := lacksId_of_ne_null x id (h x (List.mem_cons_self _ _))
    have hrest := ih (fun y hy => h y (List.mem_cons_of_mem _ hy))
    rw [filterE, hx]
    simp only [hrest, List.filter_cons]

/-! ## Lemmas on objects and the spread -/

theorem getProp_of_not_mem (l : List (String × JVal)) (k : String)
    (h : k ∉ l.map Prod.fst) : getProp l k = none := by
  induction l with
  | nil => rfl
  | cons kv rest ih =>
    obtain ⟨k0, v0⟩ := kv
    simp only [List.map_cons, List.mem_cons, not_or] at h
    have hk : ¬ k0 = k := fun e => h.1 e.symm
    simp [getProp, ih h.2, hk]

theorem getProp_append (a b : List (String × JVal)) (k : String) :
    getProp (a ++ b) k
      = match getProp b k with
        | some v => some v
        | none => getProp a k := by
  induction a with
  | nil =>
    rw [List.nil_append]
    cases getProp b k <;> rfl
  | cons kv rest ih =>
    obtain ⟨k0, v0⟩ := kv
    rw [List.cons_append, getProp, ih]
    cases getProp b k <;> simp [getProp]

theorem keys_setProp (acc : List (String × JVal)) (k : String) (v : JVal) :
    (setProp acc k v).map Prod.fst
      = if k ∈ acc.map Prod.fst then acc.map Prod.fst else acc.map Prod.fst ++ [k] := by
  induction acc with
  | nil => simp [setProp]
  | cons kv rest ih =>
    obtain ⟨k0, v0⟩ := kv
    by_cases h : k0 = k
    · subst h
      simp [setProp]
    · have h2 : ¬ k = k0 := fun e => h e.symm
      simp only [setProp, h, if_false, List.map_cons, ih, List.mem_cons, h2, false_or]
      split <;> simp

theorem nodup_keys_setProp (acc : List (String × JVal)) (k : String) (v : JVal)
    (h : (acc.map Prod.fst).Nodup) : ((setProp acc k v).map Prod.fst).Nodup := by
  rw [keys_setProp]
  split
  · exact h
  · rename_i hk
    exact List.Nodup.append h (List.nodup_singleton k) (by simpa using hk)

theorem getProp_setProp (acc : List (String × JVal)) (k k' : String) (v : JVal)
    (h : (acc.map Prod.fst).Nodup) :
    getProp (setProp acc k v) k' = if k = k' then some v else getProp acc k' := by
  induction acc with
  | nil => simp [setProp, getProp]
  | cons kv rest ih =>
    obtain ⟨k0, v0⟩ := kv
    simp only [List.map_cons, List.nodup_cons] at h
    by_cases h0 : k0 = k
    · subst h0
      simp only [setProp, if_true, getProp]
      by_cases hk : k0 = k'
      · subst hk
        simp [getProp_of_not_mem rest k0 h.1]
      · simp [hk]
    · simp only [setProp, h0, if_false, getProp, ih h.2]
      by_cases hk : k = k'
      · simp [hk]
      · simp [hk]

theorem getProp_foldl_setProp (l acc : List (String × JVal)) (k : String)
    (h : (acc.map Prod.fst).Nodup) :
    getProp (l.foldl (fun a kv => setProp a kv.1 kv.2) acc) k
      = match getProp l k with
        | some v => some v
        | none => getProp acc k := by
  induction l generalizing acc with
  | nil => rfl
  | cons kv rest ih =>
    obtain ⟨k0, v0⟩ := kv
    rw [List.foldl_cons, ih _ (nodup_keys_setProp acc k0 v0 h), getProp_setProp acc k0 k v0 h,
      getProp]
    cases getProp rest k <;> by_cases hk : k0 = k <;> simp [hk]

/-- The spread reads back the second operand where it names the key and the
first operand elsewhere. -/
theorem getProp_spread (a b : List (String × JVal)) (k : String) :
    getProp (spread a b) k
      = match getProp b k with
        | some v => some v
        | none => getProp a k := by
  unfold spread
  rw [getProp_foldl_setProp _ _ _ (by simp), getProp_append]
  cases getProp b k <;> cases getProp a k <;> rfl

theorem set_at_split (pre post : List JVal) (r y : JVal) :
    (pre ++ r :: post).set pre.length y = pre ++ y :: post := by
  induction pre with
  | nil => rfl
  | cons x rest ih => simp [ih]

theorem getD_at_split (pre post : List JVal) (r d : JVal) :
    (pre ++ r :: post).getD pre.length d = r := by
  induction pre with
  | nil => rfl
  | cons x rest ih => simpa using ih

/-! ## The derived operations: add, update, delete -/

/-- C1: for the events and the tasks collection alike, when the stored value
is a sequence of records none of which carries the identifier, update returns
failure and hands back the medium untouched, so get() reads the same
collection before and after. -/
theorem update_unknown_id_fails (c : Collection) (m : Medium) (id partialFields : JVal)
    (xs : List JVal) (hget : get c m = .arr xs) (hrec : ∀ x ∈ xs, x ≠ .null)
    (hid : ∀ x ∈ xs, carries x id = false) :
    ∃ m', update c m id partialFields = .ok (false, m') ∧ m' = m ∧ get c m' = get c m := by
  have hfind : findIndex (fun x => hasId x id) xs = .ok none := by
    apply findIndexFrom_none
    intro x hx
    rw [hasId_of_ne_null x id (hrec x hx), hid x hx]
  refine ⟨m, ?_, rfl, rfl⟩
  cases c
  · have hE : getEvents m = .arr xs := hget
    simp only [update, updateEvent, hE, hfind]
  · have hT : getTasks m = .arr xs := hget
    simp only [update, updateTask, hT, hfind]

/-- Witness of C1: an update for the unknown identifier "e9" on a store
holding two events. -/
theorem update_unknown_id_fails_witness :
    get .events (mediumWithEvents [standup, review] true) = .arr [standup, review] ∧
    (∀ x ∈ [standup, review], x ≠ .null) ∧
    (∀ x ∈ [standup, review], carries x (.str "e9") = false) ∧
    ∃ m', update .events (mediumWithEvents [standup, review] true) (.str "e9")
        (.obj [("title", .str "Retro")]) = .ok (false, m') ∧
      m' = mediumWithEvents [standup, review] true ∧
      get .events m' = get .events (mediumWithEvents [standup, review] true) :=
  have hrec : ∀ x ∈ [standup, review], x ≠ JVal.null := by
    intro x hx
    simp only [List.mem_cons, List.mem_singleton, List.not_mem_nil, or_false] at hx
    rcases hx with rfl | rfl <;> simp [standup, review]
  have hid : ∀ x ∈ [standup, review], carries x (.str "e9") = false := by
    intro x hx
    simp only [List.mem_cons, List.mem_singleton, List.not_mem_nil, or_false] at hx
    rcases hx with rfl | rfl <;> rfl
  ⟨rfl, hrec, hid,
    update_unknown_id_fails .events (mediumWithEvents [standup, review] true) (.str "e9")
      (.obj [("title", .str "Retro")]) [standup, review] rfl hrec hid⟩

/-- C2, as stated, fails: on a medium that rejects writes, deleting an
identifier that no record carries returns failure, not success. -/
theorem delete_unknown_id_rejected :
    get .events fullMedium = .arr [] ∧
    deleteById .events fullMedium (.str "e9") = .ok (false, fullMedium) ∧
    ¬ ∃ m', deleteById .events fullMedium (.str "e9") = .ok (true, m') := by
  refine ⟨rfl, rfl, ?_⟩
  rintro ⟨m', h⟩
  have h2 : deleteById .events fullMedium (.str "e9") = .ok (false, fullMedium) := rfl
  rw [h2] at h
  simp at h

/-- C2, amended: for the events and the tasks collection alike, when no stored
record carries the identifier, deleteById rewrites the same sequence: it
returns what the write returns (success when the medium accepts it, failure
when the medium rejects it) and get() reads the same collection afterwards. -/
theorem delete_unknown_id_keeps_collection (c : Collection) (m : Medium) (id : JVal)
    (xs : List JVal) (hget : get c m = .arr xs) (hrec : ∀ x ∈ xs, x ≠ .null)
    (hid : ∀ x ∈ xs, carries x id = false) :
    ∃ m', deleteById c m id = .ok (m.accepts c.key (.arr xs), m') ∧ get c m' = get c m := by
  have hfilter : filterE (fun x => lacksId x id) xs = .ok xs := by
    rw [filterE_of_ne_null id xs hrec]
    congr 1
    rw [List.filter_eq_self]
    intro x hx
    simp [hid x hx]
  have hdel : deleteById c m id = .ok (saveToStorage m c.key (.arr xs)) := by
    cases c
    · have hE : getEvents m = .arr xs := hget
      simp only [deleteById, deleteEvent, hE, hfilter, saveEvents, Collection.key]
    · have hT : getTasks m = .arr xs := hget
      simp only [deleteById, deleteTask, hT, hfilter, saveTasks, Collection.key]
  rw [hdel]
  cases hacc : m.accepts c.key (.arr xs)
  · exact ⟨m, by rw [saveToStorage_rejected m _ _ hacc], rfl⟩
  · refine ⟨m.setSlot c.key (.doc (.arr xs)), by rw [saveToStorage_accepted m _ _ hacc], ?_⟩
    rw [get_after_write c m (.arr xs) rfl, hget]

/-- Witness of C2 amended: deleting the unknown identifier "e9" from a store
holding two events, on a medium that accepts the write. -/
theorem delete_unknown_id_keeps_collection_witness :
    get .events (mediumWithEvents [standup, review] true) = .arr [standup, review] ∧
    (∀ x ∈ [standup, review], x ≠ .null) ∧
    (∀ x ∈ [standup, review], carries x (.str "e9") = false) ∧
    ∃ m', deleteById .events (mediumWithEvents [standup, review] true) (.str "e9")
        = .ok (true, m') ∧
      get .events m' = get .events (mediumWithEvents [standup, review] true) :=
  have hrec : ∀ x ∈ [standup, review], x ≠ JVal.null := by
    intro x hx
    simp only [List.mem_cons, List.mem_singleton, List.not_mem_nil, or_false] at hx
    rcases hx with rfl | rfl <;> simp [standup, review]
  have hid : ∀ x ∈ [standup, review], carries x (.str "e9") = false := by
    intro x hx
    simp only [List.mem_cons, List.mem_singleton, List.not_mem_nil, or_false] at hx
    rcases hx with rfl | rfl <;> rfl
  ⟨rfl, hrec, hid,
    delete_unknown_id_keeps_collection .events (mediumWithEvents [standup, review] true)
      (.str "e9") [standup, review] rfl hrec hid⟩

/-- The two record methods behind update, as one save of the patched array. -/
theorem update_at_split (c : Collection) (m : Medium) (id upd : JVal)
    (pre post : List JVal) (r : JVal) (hget : get c m = .arr (pre ++ r :: post))
    (hpre : ∀ x ∈ pre, hasId x id = .ok false) (hr : hasId r id = .ok true) :
    update c m id upd
      = .ok (saveToStorage m c.key
          (.arr (pre ++ .obj (spread (ownProps r) (ownProps upd)) :: post))) := by
  have hfind : findIndex (fun x => hasId x id) (pre ++ r :: post) = .ok (some pre.length) := by
    unfold findIndex
    rw [findIndexFrom_split _ pre post r 0 hpre hr, Nat.zero_add]
  cases c
  · have hE : getEvents m = .arr (pre ++ r :: post) := hget
    simp only [update, updateEvent, hE, hfind, set_at_split, getD_at_split, saveEvents,
      Collection.key]
  · have hT : getTasks m = .arr (pre ++ r :: post) := hget
    simp only [update, updateTask, hT, hfind, set_at_split, getD_at_split, saveTasks,
      Collection.key]

/-- C3, as stated, fails: on a medium that rejects the write, updating a stored
record returns failure and the record keeps its previous fields. -/
theorem update_known_id_rejected :
    carries standup (.str "e1") = true ∧
    update .events (mediumWithEvents [standup, review] false) (.str "e1")
        (.obj [("title", .str "Retro")])
      = .ok (false, mediumWithEvents [standup, review] false) ∧
    ¬ ∃ m', update .events (mediumWithEvents [standup, review] false) (.str "e1")
        (.obj [("title", .str "Retro")]) = .ok (true, m') := by
  refine ⟨rfl, rfl, ?_⟩
  rintro ⟨m', h⟩
  have h2 : update .events (mediumWithEvents [standup, review] false) (.str "e1")
      (.obj [("title", .str "Retro")])
        = .ok (false, mediumWithEvents [standup, review] false) := rfl
  rw [h2] at h
  simp at h

/-- C3, amended: when the stored value is a sequence of records one of which
carries the identifier, the sequence splits as `pre ++ r :: post` at the first
such record `r`; update writes `pre ++ merged :: post`, where `merged` reads
the partial's value at every key the partial names and the value of `r` at every
other key.  It returns what the write returns: on success get() reads the new
sequence, on a rejected write it returns failure and get() reads the old one. -/
theorem update_merges_first_match (c : Collection) (m : Medium) (id : JVal)
    (partialFields : List (String × JVal)) (xs : List JVal)
    (hget : get c m = .arr xs) (hrec : ∀ x ∈ xs, x ≠ .null)
    (hex : ∃ x ∈ xs, carries x id = true) :
    ∃ pre r post, xs = pre ++ .obj r :: post ∧
      (∀ x ∈ pre, carries x id = false) ∧ carries (.obj r) id = true ∧
      (∀ k, getProp (spread r partialFields) k
          = match getProp partialFields k with
            | some v => some v
            | none => getProp r k) ∧
      ∃ m', update c m id (.obj partialFields)
          = .ok (m.accepts c.key (.arr (pre ++ .obj (spread r partialFields) :: post)), m') ∧
        get c m'
          = .arr (if m.accepts c.key (.arr (pre ++ .obj (spread r partialFields) :: post))
              then pre ++ .obj (spread r partialFields) :: post else xs) := by
  obtain ⟨pre, r0, post, hsplit, hpre, hr0⟩ := exists_first_carrier id xs hex
  obtain ⟨r, rfl⟩ := obj_of_carries r0 id hr0
  refine ⟨pre, r, post, hsplit, hpre, hr0, fun k => getProp_spread r partialFields k, ?_⟩
  have hpre2 : ∀ x ∈ pre, hasId x id = .ok false := by
    intro x hx
    have hmem : x ∈ xs := by rw [hsplit]; exact List.mem_append_left _ hx
    rw [hasId_of_ne_null x id (hrec x hmem), hpre x hx]
  have hr2 : hasId (.obj r) id = .ok true := by
    rw [hasId_of_ne_null _ id (by simp), hr0]
  have hupd := update_at_split c m id (.obj partialFields) pre post (.obj r)
    (by rw [hget, hsplit]) hpre2 hr2
  simp only [ownProps] at hupd
  rw [hupd]
  cases hacc : m.accepts c.key (.arr (pre ++ .obj (spread r partialFields) :: post))
  · refine ⟨m, by rw [saveToStorage_rejected m _ _ hacc], ?_⟩
    simpa using hget
  · refine ⟨m.setSlot c.key (.doc (.arr (pre ++ .obj (spread r partialFields) :: post))),
      by rw [saveToStorage_accepted m _ _ hacc], ?_⟩
    rw [get_after_write c m (.arr (pre ++ .obj (spread r partialFields) :: post)) rfl]
    simp

/-- Witness of C3 amended: a form edit of the title of event "e1" on a medium
that accepts the write. -/
theorem update_merges_first_match_witness :
    get .events (mediumWithEvents [standup, review] true) = .arr [standup, review] ∧
    (∀ x ∈ [standup, review], x ≠ .null) ∧
    (∃ x ∈ [standup, review], carries x (.str "e1") = true) ∧
    ∃ pre r post, [standup, review] = pre ++ .obj r :: post ∧
      (∀ x ∈ pre, carries x (.str "e1") = false) ∧ carries (.obj r) (.str "e1") = true ∧
      (∀ k, getProp (spread r [("title", .str "Retro")]) k
          = match getProp [("title", .str "Retro")] k with
            | some v => some v
            | none => getProp r k) ∧
      ∃ m', update .events (mediumWithEvents [standup, review] true) (.str "e1")
            (.obj [("title", .str "Retro")])
          = .ok (true, m') ∧
        get .events m'
          = .arr (if true then pre ++ .obj (spread r [("title", .str "Retro")]) :: post
              else [standup, review]) :=
  have hrec : ∀ x ∈ [standup, review], x ≠ JVal.null := by
    intro x hx
    simp only [List.mem_cons, List.mem_singleton, List.not_mem_nil, or_false] at hx
    rcases hx with rfl | rfl <;> simp [standup, review]
  have hex : ∃ x ∈ [standup, review], carries x (.str "e1") = true :=
    ⟨standup, List.mem_cons_self _ _, rfl⟩
  ⟨rfl, hrec, hex,
    update_merges_first_match .events (mediumWithEvents [standup, review] true) (.str "e1")
      [("title", .str "Retro")] [standup, review] rfl hrec hex⟩

/-- C4: for the events and the tasks collection alike, when the stored value
is a sequence and the medium accepts the write, add returns success and get()
afterwards reads the previous sequence with the record appended last. -/
theorem add_appends (c : Collection) (m : Medium) (record : JVal) (xs : List JVal)
    (hget : get c m = .arr xs) (hacc : m.accepts c.key (.arr (xs ++ [record])) = true) :
    ∃ m', add c m record = .ok (true, m') ∧ get c m' = .arr (xs ++ [record]) := by
  have hadd : add c m record = .ok (saveToStorage m c.key (.arr (xs ++ [record]))) := by
    cases c
    · have hE : getEvents m = .arr xs := hget
      simp only [add, addEvent, hE, saveEvents, Collection.key]
    · have hT : getTasks m = .arr xs := hget
      simp only [add, addTask, hT, saveTasks, Collection.key]
  refine ⟨m.setSlot c.key (.doc (.arr (xs ++ [record]))), ?_, ?_⟩
  · rw [hadd, saveToStorage_accepted m _ _ hacc]
  · exact get_after_write c m (.arr (xs ++ [record])) rfl

/-- Witness of C4: adding a second event to a store holding one. -/
theorem add_appends_witness :
    get .events (mediumWithEvents [standup] true) = .arr [standup] ∧
    (mediumWithEvents [standup] true).accepts Collection.events.key
        (.arr ([standup] ++ [review])) = true ∧
    ∃ m', add .events (mediumWithEvents [standup] true) review = .ok (true, m') ∧
      get .events m' = .arr ([standup] ++ [review]) :=
  ⟨rfl, rfl, add_appends .events (mediumWithEvents [standup] true) review [standup] rfl rfl⟩

/-- C5, as stated, fails: on a medium that rejects the write, the record with
the deleted identifier is still in the collection after deleteById. -/
theorem delete_known_id_rejected :
    ∃ m', deleteById .events (mediumWithEvents [standup, review] false) (.str "e1")
        = .ok (false, m') ∧
      get .events m' = .arr [standup, review] ∧
      standup ∈ [standup, review] ∧ carries standup (.str "e1") = true :=
  ⟨mediumWithEvents [standup, review] false, rfl, rfl, List.mem_cons_self _ _, rfl⟩

/-- C5, amended: for the events and the tasks collection alike, when the stored
value is a sequence of records, deleteById writes the sequence without the
records that carry the identifier, the others in their original order, and
returns what the write returns.  When the medium accepts the write get() reads
that sequence: no record with the identifier remains and none with another
identifier is lost; when it rejects the write get() reads the old sequence. -/
theorem delete_removes_every_match (c : Collection) (m : Medium) (id : JVal)
    (xs : List JVal) (hget : get c m = .arr xs) (hrec : ∀ x ∈ xs, x ≠ .null) :
    ∃ m', deleteById c m id
        = .ok (m.accepts c.key (.arr (xs.filter (fun x => !carries x id))), m') ∧
      get c m' = .arr (if m.accepts c.key (.arr (xs.filter (fun x => !carries x id)))
        then xs.filter (fun x => !carries x id) else xs) ∧
      (∀ y ∈ xs.filter (fun x => !carries x id), carries y id = false) ∧
      (∀ x ∈ xs, carries x id = false → x ∈ xs.filter (fun x => !carries x id)) ∧
      (xs.filter (fun x => !carries x id)).Sublist xs := by
  have hdel : deleteById c m id
      = .ok (saveToStorage m c.key (.arr (xs.filter (fun x => !carries x id)))) := by
    have hfilter := filterE_of_ne_null id xs hrec
    cases c
    · have hE : getEvents m = .arr xs := hget
      simp only [deleteById, deleteEvent, hE, hfilter, saveEvents, Collection.key]
    · have hT : getTasks m = .arr xs := hget
      simp only [deleteById, deleteTask, hT, hfilter, saveTasks, Collection.key]
  have hfacts : (∀ y ∈ xs.filter (fun x => !carries x id), carries y id = false) ∧
      (∀ x ∈ xs, carries x id = false → x ∈ xs.filter (fun x => !carries x id)) ∧
      (xs.filter (fun x => !carries x id)).Sublist xs := by
    refine ⟨?_, ?_, List.filter_sublist xs⟩
    · intro y hy
      simpa using (List.mem_filter.mp hy).2
    · intro x hx hc
      exact List.mem_filter.mpr ⟨hx, by simp [hc]⟩
  rw [hdel]
  cases hacc : m.accepts c.key (.arr (xs.filter (fun x => !carries x id)))
  · exact ⟨m, by rw [saveToStorage_rejected m _ _ hacc], by simpa using hget, hfacts⟩
  · refine ⟨m.setSlot c.key (.doc (.arr (xs.filter (fun x => !carries x id)))),
      by rw [saveToStorage_accepted m _ _ hacc], ?_, hfacts⟩
    rw [get_after_write c m (.arr (xs.filter (fun x => !carries x id))) rfl]
    simp

/-- Witness of C5 amended: deleting event "e1" from a store holding two events,
on a medium that accepts the write, leaves the other event. -/
theorem delete_removes_every_match_witness :
    get .events (mediumWithEvents [standup, review] true) = .arr [standup, review] ∧
    (∀ x ∈ [standup, review], x ≠ .null) ∧
    ∃ m', deleteById .events (mediumWithEvents [standup, review] true) (.str "e1")
        = .ok (true, m') ∧
      get .events m' = .arr [review] :=
  have hrec : ∀ x ∈ [standup, review], x ≠ JVal.null := by
    intro x hx
    simp only [List.mem_cons, List.mem_singleton, List.not_mem_nil, or_false] at hx
    rcases hx with rfl | rfl <;> simp [standup, review]
  have h := delete_removes_every_match .events (mediumWithEvents [standup, review] true)
    (.str "e1") [standup, review] rfl hrec
  ⟨rfl, hrec, h.elim (fun m' hm' => ⟨m', hm'.1, hm'.2.1⟩)⟩

/-! ## Initialisation and clearing -/

/-- C6, the code at the failing input: every guard of initializeStorage tests
the negation of a getter that falls back to `[]` or `{}`, which are truthy, so
initializeStorage writes nothing on any medium.  On a medium without a
settings record the key is still absent after construction and getSettings()
reads the empty object, not the default one; the events and tasks keys stay
absent as well. -/
theorem initializeStorage_writes_nothing :
    (∀ m : Medium, initializeStorage m = m) ∧
    (newStorageManager emptyMedium).slot .SETTINGS = .absent ∧
    getSettings (newStorageManager emptyMedium) = .obj [] ∧
    (newStorageManager emptyMedium).slot .EVENTS = .absent ∧
    (newStorageManager emptyMedium).slot .TASKS = .absent := by
  refine ⟨?_, rfl, rfl, rfl, rfl⟩
  intro m
  simp [initializeStorage, truthy_getEvents, truthy_getTasks, truthy_getSettings]

/-- C7, the code on every medium: clearAllData returns success and leaves the
three keys absent, because the initializeStorage it runs writes nothing;
getSettings() then reads the empty object, not the default one. -/
theorem clearAllData_leaves_keys_absent (m : Medium) :
    (clearAllData m).1 = true ∧
    (clearAllData m).2.slot .EVENTS = .absent ∧
    (clearAllData m).2.slot .TASKS = .absent ∧
    (clearAllData m).2.slot .SETTINGS = .absent ∧
    getSettings (clearAllData m).2 = .obj [] := by
  have h : clearAllData m
      = (true, ((m.setSlot .EVENTS .absent).setSlot .TASKS .absent).setSlot .SETTINGS .absent) := by
    simp [clearAllData, initializeStorage, truthy_getEvents, truthy_getTasks,
      truthy_getSettings]
  rw [h]
  exact ⟨rfl, rfl, rfl, rfl, rfl⟩

/-! ## Export and import -/

/-- What importData does to an object: each field that is there and truthy is
handed to the save of its collection, and the result is success. -/
theorem importData_obj (m : Medium) (kvs : List (String × JVal)) :
    importData m (.obj kvs)
      = (true,
          let m1 := if truthyU (getProp kvs "events")
            then (saveEvents m ((getProp kvs "events").getD .null)).2 else m
          let m2 := if truthyU (getProp kvs "tasks")
            then (saveTasks m1 ((getProp kvs "tasks").getD .null)).2 else m1
          if truthyU (getProp kvs "settings")
            then (saveSettings m2 ((getProp kvs "settings").getD .null)).2 else m2) := rfl

/-- A completed or rejected save leaves the oracle as it was. -/
theorem accepts_saveToStorage (m : Medium) (k : Key) (v : JVal) :
    (saveToStorage m k v).2.accepts = m.accepts := by
  unfold saveToStorage
  split
  · exact accepts_setSlot m k _
  · rfl

/-- A save touches no slot but its own. -/
theorem slot_saveToStorage_other (m : Medium) (k k' : Key) (v : JVal) (h : k ≠ k') :
    (saveToStorage m k v).2.slot k' = m.slot k' := by
  unfold saveToStorage
  split
  · cases k <;> cases k' <;> first | rfl | exact absurd rfl h
  · rfl

theorem slot_saveToStorage_same (m : Medium) (k : Key) (v : JVal)
    (h : m.accepts k v = true) : (saveToStorage m k v).2.slot k = .doc v := by
  rw [saveToStorage_accepted m k v h]
  cases k <;> rfl

/-- One guarded save of importData, on the slot it may write. -/
theorem slot_guarded_save_same (m : Medium) (k : Key) (field : Option JVal)
    (h : ∀ v, field = some v → truthy v = true → m.accepts k v = true) :
    (if truthyU field then (saveToStorage m k (field.getD .null)).2 else m).slot k
      = slotAfterImport field (m.slot k) := by
  cases field with
  | none => rfl
  | some v =>
    cases hv : truthy v
    · simp [truthyU, slotAfterImport, hv]
    · simp only [truthyU, slotAfterImport, hv, if_true, Option.getD_some]
      exact slot_saveToStorage_same m k v (h v rfl hv)

/-- One guarded save of importData, on the other slots. -/
theorem slot_guarded_save_other (m : Medium) (k k' : Key) (field : Option JVal) (h : k ≠ k') :
    (if truthyU field then (saveToStorage m k (field.getD .null)).2 else m).slot k'
      = m.slot k' := by
  split
  · exact slot_saveToStorage_other m k k' _ h
  · rfl

theorem accepts_guarded_save (m : Medium) (k : Key) (field : Option JVal) :
    (if truthyU field then (saveToStorage m k (field.getD .null)).2 else m).accepts
      = m.accepts := by
  split
  · exact accepts_saveToStorage m k _
  · rfl

/-- The slots after importData on an object, when the attempted writes complete. -/
theorem importData_obj_slots (m : Medium) (kvs : List (String × JVal))
    (hE : ∀ v, getProp kvs "events" = some v → truthy v = true → m.accepts .EVENTS v = true)
    (hT : ∀ v, getProp kvs "tasks" = some v → truthy v = true → m.accepts .TASKS v = true)
    (hS : ∀ v, getProp kvs "settings" = some v → truthy v = true →
      m.accepts .SETTINGS v = true) :
    ∃ m', importData m (.obj kvs) = (true, m') ∧
      m'.slot .EVENTS = slotAfterImport (getProp kvs "events") (m.slot .EVENTS) ∧
      m'.slot .TASKS = slotAfterImport (getProp kvs "tasks") (m.slot .TASKS) ∧
      m'.slot .SETTINGS = slotAfterImport (getProp kvs "settings") (m.slot .SETTINGS) := by
  refine ⟨_, importData_obj m kvs, ?_, ?_, ?_⟩
  · simp only [saveEvents, saveTasks, saveSettings]
    rw [slot_guarded_save_other _ .SETTINGS .EVENTS _ (by decide),
      slot_guarded_save_other _ .TASKS .EVENTS _ (by decide)]
    exact slot_guarded_save_same m .EVENTS _ hE
  · simp only [saveEvents, saveTasks, saveSettings]
    rw [slot_guarded_save_other _ .SETTINGS .TASKS _ (by decide),
      slot_guarded_save_same _ .TASKS _ (by rw [accepts_guarded_save]; exact hT),
      slot_guarded_save_other _ .EVENTS .TASKS _ (by decide)]
  · simp only [saveEvents, saveTasks, saveSettings]
    rw [slot_guarded_save_same _ .SETTINGS _
        (by rw [accepts_guarded_save, accepts_guarded_save]; exact hS),
      slot_guarded_save_other _ .TASKS .SETTINGS _ (by decide),
      slot_guarded_save_other _ .EVENTS .SETTINGS _ (by decide)]

/-- C9, amended: for every store state and every input object, when the
medium accepts each write that importData attempts, importData returns success
and afterwards each collection whose field is in the input with a truthy value
holds that value, while each collection whose field is missing, or is there
with a falsy value (null, false, 0, ""), is as it was before the call. -/
theorem importData_partial (m : Medium) (kvs : List (String × JVal))
    (hE : ∀ v, getProp kvs "events" = some v → truthy v = true → m.accepts .EVENTS v = true)
    (hT : ∀ v, getProp kvs "tasks" = some v → truthy v = true → m.accepts .TASKS v = true)
    (hS : ∀ v, getProp kvs "settings" = some v → truthy v = true →
      m.accepts .SETTINGS v = true) :
    ∃ m', importData m (.obj kvs) = (true, m') ∧
      m'.slot .EVENTS = slotAfterImport (getProp kvs "events") (m.slot .EVENTS) ∧
      m'.slot .TASKS = slotAfterImport (getProp kvs "tasks") (m.slot .TASKS) ∧
      m'.slot .SETTINGS = slotAfterImport (getProp kvs "settings") (m.slot .SETTINGS) :=
  importData_obj_slots m kvs hE hT hS

/-- C9, as stated, fails twice.  A field that is there with a falsy value
replaces nothing: after importing an object whose events field is null the
stored events are the old ones, where a store overwritten with null would read
back as the empty sequence.  And a field whose write the medium rejects
replaces nothing either, although importData returns success. -/
theorem importData_present_field_not_written :
    (getProp [("events", JVal.null)] "events" = some .null ∧
      importData (mediumWithEvents [standup] true) (.obj [("events", .null)])
        = (true, mediumWithEvents [standup] true) ∧
      getEvents (mediumWithEvents [standup] true) = .arr [standup] ∧
      getEvents (saveEvents (mediumWithEvents [standup] true) .null).2 = .arr []) ∧
    (getProp [("events", JVal.arr [review])] "events" = some (.arr [review]) ∧
      importData (mediumWithEvents [standup] false) (.obj [("events", .arr [review])])
        = (true, mediumWithEvents [standup] false) ∧
      getEvents (mediumWithEvents [standup] false) = .arr [standup]) :=
  ⟨⟨rfl, rfl, rfl, rfl⟩, ⟨rfl, rfl, rfl⟩⟩

/-- Witness of C9 amended: importing an object with only a tasks field into a
store that holds one event. -/
theorem importData_partial_witness :
    (∀ v, getProp [("tasks", JVal.arr [review])] "events" = some v → truthy v = true →
      (mediumWithEvents [standup] true).accepts .EVENTS v = true) ∧
    (∀ v, getProp [("tasks", JVal.arr [review])] "tasks" = some v → truthy v = true →
      (mediumWithEvents [standup] true).accepts .TASKS v = true) ∧
    (∀ v, getProp [("tasks", JVal.arr [review])] "settings" = some v → truthy v = true →
      (mediumWithEvents [standup] true).accepts .SETTINGS v = true) ∧
    ∃ m', importData (mediumWithEvents [standup] true) (.obj [("tasks", .arr [review])])
        = (true, m') ∧
      m'.slot .EVENTS = .doc (.arr [standup]) ∧
      m'.slot .TASKS = .doc (.arr [review]) ∧
      m'.slot .SETTINGS = .absent :=
  ⟨fun _ _ _ => rfl, fun _ _ _ => rfl, fun _ _ _ => rfl,
    importData_partial (mediumWithEvents [standup] true) [("tasks", .arr [review])]
      (fun _ _ _ => rfl) (fun _ _ _ => rfl) (fun _ _ _ => rfl)⟩

theorem getEvents_of_slot (m : Medium) (v : JVal) (h : m.slot .EVENTS = .doc v)
    (hv : truthy v = true) : getEvents m = v := by
  simp only [getEvents, getFromStorage, h]
  exact jsOr_of_truthy _ _ hv

theorem getTasks_of_slot (m : Medium) (v : JVal) (h : m.slot .TASKS = .doc v)
    (hv : truthy v = true) : getTasks m = v := by
  simp only [getTasks, getFromStorage, h]
  exact jsOr_of_truthy _ _ hv

theorem getSettings_of_slot (m : Medium) (v : JVal) (h : m.slot .SETTINGS = .doc v)
    (hv : truthy v = true) : getSettings m = v := by
  simp only [getSettings, getFromStorage, h]
  exact jsOr_of_truthy _ _ hv

/-- C8, as stated, fails: importing the snapshot of a store that holds an event
into an empty store whose medium rejects writes returns success, and the
events read back are the empty sequence, not the exported one. -/
theorem export_import_rejected :
    getEvents (mediumWithEvents [standup] true) = .arr [standup] ∧
    importData fullMedium (exportData (mediumWithEvents [standup] true) "2024-05-01T09:00:00.000Z")
      = (true, fullMedium) ∧
    getEvents fullMedium = .arr [] ∧
    getEvents fullMedium ≠ getEvents (mediumWithEvents [standup] true) := by
  refine ⟨rfl, rfl, rfl, ?_⟩
  intro h
  have h2 : JVal.arr [] = JVal.arr [standup] := h
  simp at h2

/-- C8, amended: for every store state s, importing the snapshot exportData()
took in s into a store (an empty one in particular) whose medium accepts the
three writes returns success and yields a store whose getEvents(), getTasks()
and getSettings() are those of s. -/
theorem export_import_round_trip (s e : Medium) (exportDate : String)
    (hE : e.accepts .EVENTS (getEvents s) = true)
    (hT : e.accepts .TASKS (getTasks s) = true)
    (hS : e.accepts .SETTINGS (getSettings s) = true) :
    ∃ e', importData e (exportData s exportDate) = (true, e') ∧
      getEvents e' = getEvents s ∧ getTasks e' = getTasks s ∧
      getSettings e' = getSettings s := by
  have hpE : getProp [("events", getEvents s), ("tasks", getTasks s),
      ("settings", getSettings s), ("exportDate", JVal.str exportDate)] "events"
        = some (getEvents s) := rfl
  have hpT : getProp [("events", getEvents s), ("tasks", getTasks s),
      ("settings", getSettings s), ("exportDate", JVal.str exportDate)] "tasks"
        = some (getTasks s) := rfl
  have hpS : getProp [("events", getEvents s), ("tasks", getTasks s),
      ("settings", getSettings s), ("exportDate", JVal.str exportDate)] "settings"
        = some (getSettings s) := rfl
  obtain ⟨e', himp, h1, h2, h3⟩ := importData_obj_slots e _
    (by intro v hv _; rw [hpE] at hv; cases hv; exact hE)
    (by intro v hv _; rw [hpT] at hv; cases hv; exact hT)
    (by intro v hv _; rw [hpS] at hv; cases hv; exact hS)
  refine ⟨e', himp, ?_, ?_, ?_⟩
  · rw [hpE] at h1
    simp only [slotAfterImport, truthy_getEvents, if_true] at h1
    exact getEvents_of_slot e' _ h1 (truthy_getEvents s)
  · rw [hpT] at h2
    simp only [slotAfterImport, truthy_getTasks, if_true] at h2
    exact getTasks_of_slot e' _ h2 (truthy_getTasks s)
  · rw [hpS] at h3
    simp only [slotAfterImport, truthy_getSettings, if_true] at h3
    exact getSettings_of_slot e' _ h3 (truthy_getSettings s)

/-- Witness of C8 amended: the snapshot of a store holding two events, imported
into the empty store. -/
theorem export_import_round_trip_witness :
    emptyMedium.accepts .EVENTS (getEvents (mediumWithEvents [standup, review] true)) = true ∧
    emptyMedium.accepts .TASKS (getTasks (mediumWithEvents [standup, review] true)) = true ∧
    emptyMedium.accepts .SETTINGS (getSettings (mediumWithEvents [standup, review] true)) = true ∧
    ∃ e', importData emptyMedium
        (exportData (mediumWithEvents [standup, review] true) "2024-05-01T09:00:00.000Z")
          = (true, e') ∧
      getEvents e' = .arr [standup, review] ∧ getTasks e' = .arr [] ∧
      getSettings e' = .obj [] :=
  ⟨rfl, rfl, rfl,
    export_import_round_trip (mediumWithEvents [standup, review] true) emptyMedium
      "2024-05-01T09:00:00.000Z" rfl rfl rfl⟩

/-- C10, the code at the failing input: on a medium that rejects every write
the save of the events returns failure and stores nothing, and importData,
which drops that result, returns success. -/
theorem importData_hides_rejected_write :
    saveEvents fullMedium (.arr [standup]) = (false, fullMedium) ∧
    importData fullMedium (.obj [("events", .arr [standup])]) = (true, fullMedium) ∧
    getEvents fullMedium = .arr [] :=
  ⟨rfl, rfl, rfl⟩


/-! ## Lemmas on the sort -/

theorem arraySort_perm (comparefn : JVal → JVal → Option Int) (xs : List JVal) :
    (arraySort comparefn xs).Perm xs :=
  List.perm_insertionSort _ xs

theorem mem_arraySort (comparefn : JVal → JVal → Option Int) (xs : List JVal) (x : JVal) :
    x ∈ arraySort comparefn xs ↔ x ∈ xs :=
  (arraySort_perm comparefn xs).mem_iff

/-- Inserting into a list ordered by a key keeps it ordered by the key, when
the relation follows the key wherever two keys differ. -/
theorem orderedInsert_pairwise_key {α κ : Type} [LinearOrder κ] (r : α → α → Prop)
    [DecidableRel r] (key : α → κ) (a : α) (l : List α)
    (hlt : ∀ b ∈ l, key a < key b → r a b) (hgt : ∀ b ∈ l, key b < key a → ¬ r a b)
    (hl : l.Pairwise (fun x y => key x ≤ key y)) :
    (l.orderedInsert r a).Pairwise (fun x y => key x ≤ key y) := by
  induction l with
  | nil => simp
  | cons b rest ih =>
    rw [List.pairwise_cons] at hl
    by_cases hab : r a b
    · rw [List.orderedInsert, if_pos hab]
      have hkab : key a ≤ key b := by
        by_contra hcon
        exact hgt b (List.mem_cons_self _ _) (lt_of_not_le hcon) hab
      refine List.pairwise_cons.mpr ⟨?_, List.pairwise_cons.mpr hl⟩
      intro x hx
      rcases List.mem_cons.mp hx with rfl | hx
      · exact hkab
      · exact le_trans hkab (hl.1 x hx)
    · rw [List.orderedInsert, if_neg hab]
      have hkba : key b ≤ key a := by
        by_contra hcon
        exact hab (hlt b (List.mem_cons_self _ _) (lt_of_not_le hcon))
      refine List.pairwise_cons.mpr ⟨?_, ?_⟩
      · intro x hx
        rcases (List.mem_orderedInsert r).mp hx with rfl | hx
        · exact hkba
        · exact hl.1 x hx
      · exact ih (fun c hc => hlt c (List.mem_cons_of_mem _ hc))
          (fun c hc => hgt c (List.mem_cons_of_mem _ hc)) hl.2

/-- The insertion sort orders a list by a key, when the relation follows the
key wherever the keys of two elements of the list differ. -/
theorem insertionSort_pairwise_key {α κ : Type} [LinearOrder κ] (r : α → α → Prop)
    [DecidableRel r] (key : α → κ) (l : List α)
    (hlt : ∀ a ∈ l, ∀ b ∈ l, key a < key b → r a b)
    (hgt : ∀ a ∈ l, ∀ b ∈ l, key b < key a → ¬ r a b) :
    (l.insertionSort r).Pairwise (fun x y => key x ≤ key y) := by
  induction l with
  | nil => simp
  | cons a rest ih =>
    rw [List.insertionSort]
    have hmem : ∀ b, b ∈ rest.insertionSort r → b ∈ rest :=
      fun b hb => (List.mem_insertionSort r).mp hb
    apply orderedInsert_pairwise_key
    · intro b hb
      exact hlt a (List.mem_cons_self _ _) b (List.mem_cons_of_mem _ (hmem b hb))
    · intro b hb
      exact hgt a (List.mem_cons_self _ _) b (List.mem_cons_of_mem _ (hmem b hb))
    · exact ih (fun x hx y hy => hlt x (List.mem_cons_of_mem _ hx) y (List.mem_cons_of_mem _ hy))
        (fun x hx y hy => hgt x (List.mem_cons_of_mem _ hx) y (List.mem_cons_of_mem _ hy))

/-- The insertion sort is stable: the elements that satisfy a test under which
any two of them are related keep the order they have in the input. -/
theorem insertionSort_filter_stable {α : Type} (r : α → α → Prop) [DecidableRel r]
    (p : α → Bool) (l : List α)
    (htie : ∀ a ∈ l, ∀ b ∈ l, p a = true → p b = true → r a b) :
    (l.insertionSort r).filter p = l.filter p := by
  have hpair : (l.filter p).Pairwise r := by
    have h0 : (l.filter p).Pairwise (fun _ _ => True) := List.pairwise_of_forall (fun _ _ => trivial)
    refine h0.imp_of_mem ?_
    intro a b ha hb _
    exact htie a (List.mem_filter.mp ha).1 b (List.mem_filter.mp hb).1
      (List.mem_filter.mp ha).2 (List.mem_filter.mp hb).2
  have hsub : (l.filter p).Sublist (l.insertionSort r) :=
    List.sublist_insertionSort hpair (List.filter_sublist l)
  have hsub2 : (l.filter p).Sublist ((l.insertionSort r).filter p) := by
    have h := hsub.filter p
    simpa [List.filter_filter] using h
  have hlen : ((l.insertionSort r).filter p).length = (l.filter p).length :=
    ((List.perm_insertionSort r l).filter p).length_eq
  exact (hsub2.eq_of_length hlen.symm).symm

theorem filterE_onRecord (f : JVal → Bool) (xs : List JVal) (h : ∀ x ∈ xs, x ≠ .null) :
    filterE (onRecord f) xs = .ok (xs.filter f) := by
  induction xs with
  | nil => rfl
  | cons x rest ih =>
    have hx : onRecord f x = .ok (f x) := by
      cases x with
      | null => exact absurd rfl (h _ (List.mem_cons_self _ _))
      | _ => rfl
    have hrest := ih (fun y hy => h y (List.mem_cons_of_mem _ hy))
    rw [filterE, hx]
    simp only [hrest, List.filter_cons]


/-! ## Event queries -/

theorem getUpcomingEvents_eq (pf : Platform) (m : Medium) (now : Int) (events : List JVal)
    (hget : getEvents m = .arr events) (hrec : ∀ e ∈ events, e ≠ .null) :
    getUpcomingEvents pf m now
      = .ok (arraySort (fun a b => subNum (eventDateTime pf a) (eventDateTime pf b))
          (events.filter (isUpcoming pf now))) := by
  simp only [getUpcomingEvents, hget, filterE_onRecord _ events hrec]

theorem getAttendedEvents_eq (pf : Platform) (m : Medium) (now : Int) (events : List JVal)
    (hget : getEvents m = .arr events) (hrec : ∀ e ∈ events, e ≠ .null) :
    getAttendedEvents pf m now
      = .ok (arraySort (fun a b => subNum (eventDateTime pf b) (eventDateTime pf a))
          (events.filter (isAttended pf now))) := by
  simp only [getAttendedEvents, hget, filterE_onRecord _ events hrec]

theorem isUpcoming_iff (pf : Platform) (now : Int) (e : JVal) :
    isUpcoming pf now e = true ↔
      (truthyU (prop e "isCompleted") = false ∧ ∃ t, eventDateTime pf e = some t ∧ now < t) := by
  unfold isUpcoming
  cases h : eventDateTime pf e with
  | none => simp [gtNum]
  | some t =>
    cases hc : truthyU (prop e "isCompleted") <;> simp [gtNum]

/-- C11, the code at the failing input: on a host five hours behind UTC, with
one stored event dated 2024-05-01.  The text of the date is read as midnight
UTC, which is 19:00 of 30 April in local time, so the event is compared as an
event of 30 April: the query for the local day 1 May (the Date a calendar cell
passes) returns nothing, and the query for 30 April returns the event. -/
theorem getEventsByDate_off_by_one_day_west_of_utc :
    civilDay "2024-05-01".toList = some 19844 ∧
    toDateString bogota (newDate bogota (some (.str "2024-05-01"))) = some 19843 ∧
    toDateString bogota (some (localTime bogota 2024 5 1 0 0)) = some 19844 ∧
    getEventsByDate bogota
        (mediumWithEvents [eventRecord "e1" "Standup" "2024-05-01" "09:00" false] true)
        (.dateObject (some (localTime bogota 2024 5 1 0 0))) = .ok [] ∧
    getEventsByDate bogota
        (mediumWithEvents [eventRecord "e1" "Standup" "2024-05-01" "09:00" false] true)
        (.dateObject (some (localTime bogota 2024 4 30 0 0)))
      = .ok [eventRecord "e1" "Standup" "2024-05-01" "09:00" false] :=
  ⟨rfl, rfl, rfl, rfl, rfl⟩

/-- C12: when the stored value is a sequence of records, getUpcomingEvents()
returns a permutation of the stored events that pass its filter, each as often
as the store holds it, and an event passes the filter exactly when it is not
completed and its date and time give an instant strictly later than now. -/
theorem upcoming_contains_exactly (pf : Platform) (m : Medium) (now : Int)
    (events : List JVal) (hget : getEvents m = .arr events)
    (hrec : ∀ e ∈ events, e ≠ .null) :
    ∃ out, getUpcomingEvents pf m now = .ok out ∧
      out.Perm (events.filter (isUpcoming pf now)) ∧
      (∀ e, e ∈ out ↔ e ∈ events ∧ truthyU (prop e "isCompleted") = false ∧
        ∃ t, eventDateTime pf e = some t ∧ now < t) := by
  refine ⟨_, getUpcomingEvents_eq pf m now events hget hrec, arraySort_perm _ _, ?_⟩
  intro e
  rw [mem_arraySort, List.mem_filter, isUpcoming_iff]

/-- Witness of C12: four stored events read at noon of 2024-05-01; the two
pending events of the following days are returned. -/
theorem upcoming_contains_exactly_witness :
    getEvents (mediumWithEvents sampleEvents true) = .arr sampleEvents ∧
    (∀ e ∈ sampleEvents, e ≠ .null) ∧
    ∃ out, getUpcomingEvents utcHost (mediumWithEvents sampleEvents true) sampleNow = .ok out ∧
      out.Perm (sampleEvents.filter (isUpcoming utcHost sampleNow)) ∧
      (∀ e, e ∈ out ↔ e ∈ sampleEvents ∧ truthyU (prop e "isCompleted") = false ∧
        ∃ t, eventDateTime utcHost e = some t ∧ sampleNow < t) :=
  have hrec : ∀ e ∈ sampleEvents, e ≠ JVal.null := by
    intro e he
    simp only [sampleEvents, List.mem_cons, List.mem_singleton, List.not_mem_nil, or_false] at he
    rcases he with rfl | rfl | rfl | rfl <;> simp [eventRecord]
  ⟨rfl, hrec,
    upcoming_contains_exactly utcHost (mediumWithEvents sampleEvents true) sampleNow
      sampleEvents rfl hrec⟩

/-- C13, the code at the failing input: one stored event, not completed, due
at 09:00 of 2024-05-01, read at exactly that instant.  The filter of
getUpcomingEvents asks for an instant after now and the filter of
getAttendedEvents for an instant before now, so the event is in neither
result. -/
theorem event_due_now_is_in_neither_list :
    eventDateTime bogota (eventRecord "e1" "Standup" "2024-05-01" "09:00" false)
      = some (localTime bogota 2024 5 1 9 0) ∧
    getUpcomingEvents bogota
        (mediumWithEvents [eventRecord "e1" "Standup" "2024-05-01" "09:00" false] true)
        (localTime bogota 2024 5 1 9 0) = .ok [] ∧
    getAttendedEvents bogota
        (mediumWithEvents [eventRecord "e1" "Standup" "2024-05-01" "09:00" false] true)
        (localTime bogota 2024 5 1 9 0) = .ok [] :=
  ⟨rfl, rfl, rfl⟩

theorem eventDateTime_of_isUpcoming (pf : Platform) (now : Int) (e : JVal)
    (h : isUpcoming pf now e = true) : ∃ t, eventDateTime pf e = some t := by
  obtain ⟨_, t, ht, _⟩ := (isUpcoming_iff pf now e).mp h
  exact ⟨t, ht⟩

/-- Ascending order of the sorted list, for a comparator `dateA - dateB` on
records that all have an instant. -/
theorem arraySort_ascending (inst : JVal → Option Int) (xs : List JVal)
    (hvalid : ∀ x ∈ xs, ∃ t, inst x = some t) :
    (arraySort (fun a b => subNum (inst a) (inst b)) xs).Pairwise
      (fun x y => ∀ tx ty, inst x = some tx → inst y = some ty → tx ≤ ty) := by
  have hkey := insertionSort_pairwise_key
    (fun a b => sortCompare (subNum (inst a) (inst b)) ≤ 0) (fun x => (inst x).getD 0) xs
    (by
      intro a ha b hb hlt
      obtain ⟨ta, hta⟩ := hvalid a ha
      obtain ⟨tb, htb⟩ := hvalid b hb
      simp only [hta, htb, Option.getD_some, subNum, sortCompare] at hlt ⊢
      omega)
    (by
      intro a ha b hb hlt
      obtain ⟨ta, hta⟩ := hvalid a ha
      obtain ⟨tb, htb⟩ := hvalid b hb
      simp only [hta, htb, Option.getD_some, subNum, sortCompare] at hlt ⊢
      omega)
  refine hkey.imp ?_
  intro x y hxy tx ty hx hy
  simpa [hx, hy] using hxy

/-- Descending order of the sorted list, for a comparator `dateB - dateA` on
records that all have an instant. -/
theorem arraySort_descending (inst : JVal → Option Int) (xs : List JVal)
    (hvalid : ∀ x ∈ xs, ∃ t, inst x = some t) :
    (arraySort (fun a b => subNum (inst b) (inst a)) xs).Pairwise
      (fun x y => ∀ tx ty, inst x = some tx → inst y = some ty → ty ≤ tx) := by
  have hkey := insertionSort_pairwise_key
    (fun a b => sortCompare (subNum (inst b) (inst a)) ≤ 0) (fun x => -((inst x).getD 0)) xs
    (by
      intro a ha b hb hlt
      obtain ⟨ta, hta⟩ := hvalid a ha
      obtain ⟨tb, htb⟩ := hvalid b hb
      simp only [hta, htb, Option.getD_some, subNum, sortCompare] at hlt ⊢
      omega)
    (by
      intro a ha b hb hlt
      obtain ⟨ta, hta⟩ := hvalid a ha
      obtain ⟨tb, htb⟩ := hvalid b hb
      simp only [hta, htb, Option.getD_some, subNum, sortCompare] at hlt ⊢
      omega)
  refine hkey.imp ?_
  intro x y hxy tx ty hx hy
  have h := hxy
  simp only [hx, hy, Option.getD_some] at h
  omega

/-- Records with one and the same instant keep their order through the sort,
whichever way the comparator subtracts. -/
theorem arraySort_stable_asc (inst : JVal → Option Int) (xs : List JVal) (t : Int) :
    (arraySort (fun a b => subNum (inst a) (inst b)) xs).filter
        (fun e => decide (inst e = some t))
      = xs.filter (fun e => decide (inst e = some t)) := by
  apply insertionSort_filter_stable
  intro a _ b _ ha hb
  simp only [decide_eq_true_eq] at ha hb
  simp [ha, hb, subNum, sortCompare]

theorem arraySort_stable_desc (inst : JVal → Option Int) (xs : List JVal) (t : Int) :
    (arraySort (fun a b => subNum (inst b) (inst a)) xs).filter
        (fun e => decide (inst e = some t))
      = xs.filter (fun e => decide (inst e = some t)) := by
  apply insertionSort_filter_stable
  intro a _ b _ ha hb
  simp only [decide_eq_true_eq] at ha hb
  simp [ha, hb, subNum, sortCompare]

/-- C14: when the stored value is a sequence of records, every event that
getUpcomingEvents() returns has an instant, each returned event's instant is
at most that of every event after it, and for every instant the returned
events due at it are, in the same order, the stored upcoming events due at
it. -/
theorem upcoming_sorted_stable (pf : Platform) (m : Medium) (now : Int)
    (events : List JVal) (hget : getEvents m = .arr events)
    (hrec : ∀ e ∈ events, e ≠ .null) :
    ∃ out, getUpcomingEvents pf m now = .ok out ∧
      (∀ e ∈ out, ∃ t, eventDateTime pf e = some t) ∧
      out.Pairwise (fun x y => ∀ tx ty, eventDateTime pf x = some tx →
        eventDateTime pf y = some ty → tx ≤ ty) ∧
      ∀ t, out.filter (fun e => decide (eventDateTime pf e = some t))
        = (events.filter (isUpcoming pf now)).filter
            (fun e => decide (eventDateTime pf e = some t)) := by
  have hvalid : ∀ e ∈ events.filter (isUpcoming pf now), ∃ t, eventDateTime pf e = some t :=
    fun e he => eventDateTime_of_isUpcoming pf now e (List.mem_filter.mp he).2
  refine ⟨_, getUpcomingEvents_eq pf m now events hget hrec, ?_,
    arraySort_ascending (eventDateTime pf) _ hvalid,
    fun t => arraySort_stable_asc (eventDateTime pf) _ t⟩
  intro e he
  exact hvalid e ((mem_arraySort _ _ e).mp he)

/-- C15: when the stored value is a sequence of records whose dates and times
all give an instant, each event that getAttendedEvents() returns has an instant
at least that of every event after it, and for every instant the returned
events due at it are, in the same order, the stored attended events due at
it. -/
theorem attended_sorted_stable (pf : Platform) (m : Medium) (now : Int)
    (events : List JVal) (hget : getEvents m = .arr events)
    (hrec : ∀ e ∈ events, e ≠ .null)
    (hvalid : ∀ e ∈ events, ∃ t, eventDateTime pf e = some t) :
    ∃ out, getAttendedEvents pf m now = .ok out ∧
      (∀ e ∈ out, ∃ t, eventDateTime pf e = some t) ∧
      out.Pairwise (fun x y => ∀ tx ty, eventDateTime pf x = some tx →
        eventDateTime pf y = some ty → ty ≤ tx) ∧
      ∀ t, out.filter (fun e => decide (eventDateTime pf e = some t))
        = (events.filter (isAttended pf now)).filter
            (fun e => decide (eventDateTime pf e = some t)) := by
  have hvalid2 : ∀ e ∈ events.filter (isAttended pf now), ∃ t, eventDateTime pf e = some t :=
    fun e he => hvalid e (List.mem_filter.mp he).1
  exact ⟨_, getAttendedEvents_eq pf m now events hget hrec,
    fun e he => hvalid2 e ((mem_arraySort _ _ e).mp he),
    arraySort_descending (eventDateTime pf) _ hvalid2,
    fun t => arraySort_stable_desc (eventDateTime pf) _ t⟩

/-- Witness of C14: the four sample events read at noon of 2024-05-01. -/
theorem upcoming_sorted_stable_witness :
    getEvents (mediumWithEvents sampleEvents true) = .arr sampleEvents ∧
    (∀ e ∈ sampleEvents, e ≠ .null) ∧
    ∃ out, getUpcomingEvents utcHost (mediumWithEvents sampleEvents true) sampleNow = .ok out ∧
      (∀ e ∈ out, ∃ t, eventDateTime utcHost e = some t) ∧
      out.Pairwise (fun x y => ∀ tx ty, eventDateTime utcHost x = some tx →
        eventDateTime utcHost y = some ty → tx ≤ ty) ∧
      ∀ t, out.filter (fun e => decide (eventDateTime utcHost e = some t))
        = (sampleEvents.filter (isUpcoming utcHost sampleNow)).filter
            (fun e => decide (eventDateTime utcHost e = some t)) :=
  have hrec : ∀ e ∈ sampleEvents, e ≠ JVal.null := by
    intro e he
    simp only [sampleEvents, List.mem_cons, List.mem_singleton, List.not_mem_nil, or_false] at he
    rcases he with rfl | rfl | rfl | rfl <;> simp [eventRecord]
  ⟨rfl, hrec,
    upcoming_sorted_stable utcHost (mediumWithEvents sampleEvents true) sampleNow
      sampleEvents rfl hrec⟩

/-- Witness of C15: the four sample events, whose dates and times all parse,
read at noon of 2024-05-01. -/
theorem attended_sorted_stable_witness :
    getEvents (mediumWithEvents sampleEvents true) = .arr sampleEvents ∧
    (∀ e ∈ sampleEvents, e ≠ .null) ∧
    (∀ e ∈ sampleEvents, ∃ t, eventDateTime utcHost e = some t) ∧
    ∃ out, getAttendedEvents utcHost (mediumWithEvents sampleEvents true) sampleNow = .ok out ∧
      (∀ e ∈ out, ∃ t, eventDateTime utcHost e = some t) ∧
      out.Pairwise (fun x y => ∀ tx ty, eventDateTime utcHost x = some tx →
        eventDateTime utcHost y = some ty → ty ≤ tx) ∧
      ∀ t, out.filter (fun e => decide (eventDateTime utcHost e = some t))
        = (sampleEvents.filter (isAttended utcHost sampleNow)).filter
            (fun e => decide (eventDateTime utcHost e = some t)) :=
  have hrec : ∀ e ∈ sampleEvents, e ≠ JVal.null := by
    intro e he
    simp only [sampleEvents, List.mem_cons, List.mem_singleton, List.not_mem_nil, or_false] at he
    rcases he with rfl | rfl | rfl | rfl <;> simp [eventRecord]
  have hvalid : ∀ e ∈ sampleEvents, ∃ t, eventDateTime utcHost e = some t := by
    intro e he
    simp only [sampleEvents, List.mem_cons, List.mem_singleton, List.not_mem_nil, or_false] at he
    rcases he with rfl | rfl | rfl | rfl <;> exact ⟨_, rfl⟩
  ⟨rfl, hrec, hvalid,
    attended_sorted_stable utcHost (mediumWithEvents sampleEvents true) sampleNow
      sampleEvents rfl hrec hvalid⟩

/-! ## Task filters -/

theorem onRecord_of_ne_null {α : Type} (f : JVal → α) (v : JVal) (h : v ≠ .null) :
    onRecord f v = .ok (f v) := by
  cases v with
  | null => exact absurd rfl h
  | _ => rfl

/-- On a task that is not `null`, under a status filter that is one of the
three values, the callback of applyFilters answers the conjunction. -/
theorem passesFilters_eq (f : Filters) (task : JVal) (h : task ≠ .null)
    (hstatus : f.status = "all" ∨ f.status = "completed" ∨ f.status = "pending") :
    passesFilters f task = .ok (matchesFilters f task) := by
  unfold passesFilters matchesFilters
  simp only [onRecord_of_ne_null _ task h]
  rcases hstatus with hs | hs | hs <;> rw [hs] <;>
    by_cases hc : f.category = "all" <;> by_cases hp : f.priority = "all" <;>
    cases strictEq (prop task "category") (some (.str f.category)) <;>
    cases strictEq (prop task "priority") (some (.str f.priority)) <;>
    cases truthyU (prop task "isCompleted") <;>
    simp [hc, hp]

theorem filterE_of_forall_ok (p : JVal → Except JsError Bool) (q : JVal → Bool)
    (xs : List JVal) (h : ∀ x ∈ xs, p x = .ok (q x)) :
    filterE p xs = .ok (xs.filter q) := by
  induction xs with
  | nil => rfl
  | cons x rest ih =>
    have hrest := ih (fun y hy => h y (List.mem_cons_of_mem _ hy))
    rw [filterE, h x (List.mem_cons_self _ _)]
    simp only [hrest, List.filter_cons]

/-- C16: for every list of tasks and every filter triple whose status is all,
completed or pending, applyFilters returns the tasks that satisfy the three
conditions at once, in input order; with the three filters at all it returns
the list unchanged. -/
theorem applyFilters_is_conjunction (f : Filters) (tasks : List JVal)
    (hrec : ∀ t ∈ tasks, t ≠ .null)
    (hstatus : f.status = "all" ∨ f.status = "completed" ∨ f.status = "pending") :
    applyFilters f tasks = .ok (tasks.filter (matchesFilters f)) ∧
    (f.category = "all" → f.priority = "all" → f.status = "all" →
      applyFilters f tasks = .ok tasks) := by
  have h1 : applyFilters f tasks = .ok (tasks.filter (matchesFilters f)) :=
    filterE_of_forall_ok _ _ tasks (fun t ht => passesFilters_eq f t (hrec t ht) hstatus)
  refine ⟨h1, ?_⟩
  intro hc hp hs
  rw [h1]
  congr 1
  rw [List.filter_eq_self]
  intro t _
  simp [matchesFilters, hc, hp, hs]

/-- Witness of C16: the pending work tasks of the sample list. -/
theorem applyFilters_is_conjunction_witness :
    (∀ t ∈ sampleTasks, t ≠ .null) ∧
    (("pending" : String) = "all" ∨ ("pending" : String) = "completed" ∨
      ("pending" : String) = "pending") ∧
    applyFilters { category := "work", priority := "all", status := "pending" } sampleTasks
      = .ok (sampleTasks.filter
          (matchesFilters { category := "work", priority := "all", status := "pending" })) ∧
    (("work" : String) = "all" → ("all" : String) = "all" → ("pending" : String) = "all" →
      applyFilters { category := "work", priority := "all", status := "pending" } sampleTasks
        = .ok sampleTasks) :=
  have hrec : ∀ t ∈ sampleTasks, t ≠ JVal.null := by
    intro t ht
    simp only [sampleTasks, List.mem_cons, List.mem_singleton, List.not_mem_nil, or_false] at ht
    rcases ht with rfl | rfl | rfl | rfl <;> simp [taskRecord]
  ⟨hrec, Or.inr (Or.inr rfl),
    applyFilters_is_conjunction { category := "work", priority := "all", status := "pending" }
      sampleTasks hrec (Or.inr (Or.inr rfl))⟩

/-! ## Task order -/

theorem any_isNull_false (tasks : List JVal) (hrec : ∀ t ∈ tasks, t ≠ .null) :
    tasks.any isNull = false := by
  rw [List.any_eq_false]
  intro t ht
  cases t with
  | null => exact absurd rfl (hrec _ ht)
  | _ => simp [isNull]

theorem sortTasks_eq (pf : Platform) (tasks : List JVal) (hrec : ∀ t ∈ tasks, t ≠ .null) :
    sortTasks pf tasks = .ok (arraySort (compareTasks pf) tasks) := by
  simp [sortTasks, any_isNull_false tasks hrec]

/-- Two values that are strictly equal are truthy together. -/
theorem truthyU_eq_of_strictEq (x y : Option JVal) (h : strictEq x y = true) :
    truthyU x = truthyU y := by
  cases x with
  | none =>
    cases y with
    | none => rfl
    | some vy => cases vy <;> simp [strictEq] at h
  | some vx =>
    cases y with
    | none => cases vx <;> simp [strictEq] at h
    | some vy =>
      cases vx <;> cases vy <;> simp [strictEq] at h <;> simp [h, truthyU]

/-- The first tier of the comparator: two tasks of which one is completed and
the other is not. -/
theorem compareTasks_of_flag_ne (pf : Platform) (a b : JVal)
    (h : completedFlag a ≠ completedFlag b) :
    compareTasks pf a b = some (if completedFlag a then 1 else -1) := by
  have hne : strictEq (prop a "isCompleted") (prop b "isCompleted") = false := by
    cases hs : strictEq (prop a "isCompleted") (prop b "isCompleted")
    · rfl
    · exact absurd (truthyU_eq_of_strictEq _ _ hs) h
  simp [compareTasks, hne, completedFlag]

/-- The comparator on two tasks whose completion is a boolean and whose
priority has a rank. -/
theorem compareTasks_wf (pf : Platform) (a b : JVal) (ca cb : Bool) (ra rb : Int)
    (ha : prop a "isCompleted" = some (.bool ca)) (hb : prop b "isCompleted" = some (.bool cb))
    (hra : rankOf a = some ra) (hrb : rankOf b = some rb) :
    compareTasks pf a b
      = if ca ≠ cb then some (if ca then 1 else -1)
        else if rb - ra ≠ 0 then some (rb - ra)
        else if hasDueDate a && hasDueDate b then subNum (dueTime pf a) (dueTime pf b)
        else if hasDueDate a && !hasDueDate b then some (-1)
        else if !hasDueDate a && hasDueDate b then some 1
        else subNum (createdTime pf b) (createdTime pf a) := by
  unfold rankOf at hra hrb
  simp only [compareTasks, ha, hb, hra, hrb, strictEq, subNum, hasDueDate, dueTime,
    createdTime, truthyU, truthy]
  cases ca <;> cases cb <;> simp

theorem completedFlag_of_bool (t : JVal) (c : Bool)
    (h : prop t "isCompleted" = some (.bool c)) : completedFlag t = c := by
  simp [completedFlag, h, truthyU, truthy]

theorem rankOf_of_priority (t : JVal)
    (h : prop t "priority" = some (.str "low") ∨ prop t "priority" = some (.str "medium") ∨
      prop t "priority" = some (.str "high")) :
    ∃ r, rankOf t = some r ∧ 1 ≤ r ∧ r ≤ 3 := by
  rcases h with h | h | h
  · exact ⟨1, by rw [rankOf, h]; rfl, by omega, by omega⟩
  · exact ⟨2, by rw [rankOf, h]; rfl, by omega, by omega⟩
  · exact ⟨3, by rw [rankOf, h]; rfl, by omega, by omega⟩

theorem ne_null_of_prop (t : JVal) (name : String) (v : JVal) (h : prop t name = some v) :
    t ≠ .null := by
  rintro rfl
  simp [prop] at h

/-- A list in which no element with the flag comes before one without it is
the elements without the flag followed by the elements with it. -/
theorem split_of_pairwise_flag (c : JVal → Bool) (l : List JVal)
    (h : l.Pairwise (fun x y => ¬ (c x = true ∧ c y = false))) :
    l = l.filter (fun t => !c t) ++ l.filter c := by
  induction l with
  | nil => rfl
  | cons a rest ih =>
    rw [List.pairwise_cons] at h
    have ih2 := ih h.2
    cases hca : c a
    · simp only [List.filter_cons, hca, Bool.not_false, if_true, List.cons_append]
      simp only [Bool.false_eq_true, if_false]
      rw [← ih2]
    · have hall : ∀ y ∈ rest, c y = true := by
        intro y hy
        cases hcy : c y
        · exact absurd ⟨hca, hcy⟩ (h.1 y hy)
        · rfl
      have h1 : rest.filter (fun t => !c t) = [] := by
        rw [List.filter_eq_nil_iff]
        intro y hy
        simp [hall y hy]
      have h2 : rest.filter c = rest := by
        rw [List.filter_eq_self]
        exact hall
      simp [List.filter_cons, hca, h1, h2]

/-- The sorted list is ordered by completion, whatever the other fields. -/
theorem arraySort_flag_order (pf : Platform) (tasks : List JVal) :
    (arraySort (compareTasks pf) tasks).Pairwise
      (fun x y => ¬ (completedFlag x = true ∧ completedFlag y = false)) := by
  have hkey := insertionSort_pairwise_key
    (fun a b => sortCompare (compareTasks pf a b) ≤ 0)
    (fun t => if completedFlag t then (1 : Int) else 0) tasks
    (by
      intro a _ b _ hlt
      beta_reduce at hlt ⊢
      have hne : completedFlag a ≠ completedFlag b := by
        intro he
        rw [he] at hlt
        exact lt_irrefl _ hlt
      rw [compareTasks_of_flag_ne pf a b hne]
      cases hca : completedFlag a <;> cases hcb : completedFlag b <;>
        simp [hca, hcb, sortCompare] at hlt ⊢)
    (by
      intro a _ b _ hlt
      beta_reduce at hlt ⊢
      have hne : completedFlag a ≠ completedFlag b := by
        intro he
        rw [he] at hlt
        exact lt_irrefl _ hlt
      rw [compareTasks_of_flag_ne pf a b hne]
      cases hca : completedFlag a <;> cases hcb : completedFlag b <;>
        simp [hca, hcb, sortCompare] at hlt ⊢)
  refine hkey.imp ?_
  intro x y hxy hcon
  simp [hcon.1, hcon.2] at hxy

/-- C18: for every list of tasks, in the output of sortTasks no completed task
comes before a task that is not completed, whatever their priorities and
dates: the output is its pending tasks followed by its completed tasks. -/
theorem sortTasks_pending_before_completed (pf : Platform) (tasks : List JVal)
    (hrec : ∀ t ∈ tasks, t ≠ .null) :
    ∃ out, sortTasks pf tasks = .ok out ∧ out.Perm tasks ∧
      out.Pairwise (fun x y => ¬ (completedFlag x = true ∧ completedFlag y = false)) ∧
      ∃ pending completed, out = pending ++ completed ∧
        (∀ t ∈ pending, completedFlag t = false) ∧
        (∀ t ∈ completed, completedFlag t = true) := by
  refine ⟨_, sortTasks_eq pf tasks hrec, arraySort_perm _ _, arraySort_flag_order pf tasks, ?_⟩
  refine ⟨_, _, split_of_pairwise_flag completedFlag _ (arraySort_flag_order pf tasks), ?_, ?_⟩
  · intro t ht
    simpa using (List.mem_filter.mp ht).2
  · intro t ht
    exact (List.mem_filter.mp ht).2

/-- Witness of C18: the four sample tasks, one of them completed. -/
theorem sortTasks_pending_before_completed_witness :
    (∀ t ∈ sampleTasks, t ≠ .null) ∧
    ∃ out, sortTasks utcHost sampleTasks = .ok out ∧ out.Perm sampleTasks ∧
      out.Pairwise (fun x y => ¬ (completedFlag x = true ∧ completedFlag y = false)) ∧
      ∃ pending completed, out = pending ++ completed ∧
        (∀ t ∈ pending, completedFlag t = false) ∧
        (∀ t ∈ completed, completedFlag t = true) :=
  have hrec : ∀ t ∈ sampleTasks, t ≠ JVal.null := by
    intro t ht
    simp only [sampleTasks, List.mem_cons, List.mem_singleton, List.not_mem_nil, or_false] at ht
    rcases ht with rfl | rfl | rfl | rfl <;> simp [taskRecord]
  ⟨hrec, sortTasks_pending_before_completed utcHost sampleTasks hrec⟩

/-- The key of the first two tiers: completion, then rank from high to low. -/
theorem compareTasks_follows_rank (pf : Platform) (a b : JVal) (ca cb : Bool) (ra rb : Int)
    (ha : prop a "isCompleted" = some (.bool ca)) (hb : prop b "isCompleted" = some (.bool cb))
    (hra : rankOf a = some ra) (hrb : rankOf b = some rb)
    (hra3 : 1 ≤ ra ∧ ra ≤ 3) (hrb3 : 1 ≤ rb ∧ rb ≤ 3) :
    ((if ca then (4 : Int) else 0) + (3 - ra) < (if cb then (4 : Int) else 0) + (3 - rb) →
      sortCompare (compareTasks pf a b) ≤ 0) ∧
    ((if cb then (4 : Int) else 0) + (3 - rb) < (if ca then (4 : Int) else 0) + (3 - ra) →
      ¬ sortCompare (compareTasks pf a b) ≤ 0) := by
  rw [compareTasks_wf pf a b ca cb ra rb ha hb hra hrb]
  by_cases hc : ca = cb
  · subst hc
    rw [if_neg (show ¬ (ca ≠ ca) from fun h => h rfl)]
    by_cases hd : rb - ra = 0
    · constructor <;> intro hlt <;> omega
    · rw [if_pos hd]
      simp only [sortCompare, Option.getD_some]
      constructor <;> intro hlt <;> omega
  · rw [if_pos (show ca ≠ cb from hc)]
    cases ca <;> cases cb <;> simp [sortCompare] at hc ⊢ <;> omega

/-- C17: for every list of tasks whose completion is a boolean and whose
priorities are all among low, medium and high, the output of sortTasks holds
the same tasks, and of any two tasks in it that are in the same completion
state and differ in priority the earlier one has the higher rank (high 3,
medium 2, low 1), whatever their due dates and creation times. -/
theorem sortTasks_higher_rank_first (pf : Platform) (tasks : List JVal)
    (hbool : ∀ t ∈ tasks, ∃ c, prop t "isCompleted" = some (.bool c))
    (hprio : ∀ t ∈ tasks, prop t "priority" = some (.str "low") ∨
      prop t "priority" = some (.str "medium") ∨ prop t "priority" = some (.str "high")) :
    ∃ out, sortTasks pf tasks = .ok out ∧ out.Perm tasks ∧
      out.Pairwise (fun x y => completedFlag x = completedFlag y →
        ∀ rx ry, rankOf x = some rx → rankOf y = some ry → rx ≠ ry → ry < rx) := by
  have hrec : ∀ t ∈ tasks, t ≠ .null := by
    intro t ht
    obtain ⟨c, hc⟩ := hbool t ht
    exact ne_null_of_prop t _ _ hc
  refine ⟨_, sortTasks_eq pf tasks hrec, arraySort_perm _ _, ?_⟩
  have hview : ∀ a ∈ tasks, ∀ b ∈ tasks,
      ((if completedFlag a then (4 : Int) else 0) + (3 - (rankOf a).getD 0)
          < (if completedFlag b then (4 : Int) else 0) + (3 - (rankOf b).getD 0) →
        sortCompare (compareTasks pf a b) ≤ 0) ∧
      ((if completedFlag b then (4 : Int) else 0) + (3 - (rankOf b).getD 0)
          < (if completedFlag a then (4 : Int) else 0) + (3 - (rankOf a).getD 0) →
        ¬ sortCompare (compareTasks pf a b) ≤ 0) := by
    intro a ha b hb
    obtain ⟨ca, hca⟩ := hbool a ha
    obtain ⟨cb, hcb⟩ := hbool b hb
    obtain ⟨ra, hra, hra3⟩ := rankOf_of_priority a (hprio a ha)
    obtain ⟨rb, hrb, hrb3⟩ := rankOf_of_priority b (hprio b hb)
    rw [completedFlag_of_bool a ca hca, completedFlag_of_bool b cb hcb, hra, hrb]
    exact compareTasks_follows_rank pf a b ca cb ra rb hca hcb hra hrb hra3 hrb3
  have hkey := insertionSort_pairwise_key
    (fun a b => sortCompare (compareTasks pf a b) ≤ 0)
    (fun t => (if completedFlag t then (4 : Int) else 0) + (3 - (rankOf t).getD 0)) tasks
    (fun a ha b hb => (hview a ha b hb).1) (fun a ha b hb => (hview a ha b hb).2)
  refine hkey.imp ?_
  intro x y hxy hc rx ry hrx hry hne
  simp only [hc, hrx, hry, Option.getD_some] at hxy
  omega

/-- Witness of C17: the sample tasks, among them the pending "Ship report"
(high, due in three days) and the pending "Walk dog" (low, due today). -/
theorem sortTasks_higher_rank_first_witness :
    (∀ t ∈ sampleTasks, ∃ c, prop t "isCompleted" = some (.bool c)) ∧
    (∀ t ∈ sampleTasks, prop t "priority" = some (.str "low") ∨
      prop t "priority" = some (.str "medium") ∨ prop t "priority" = some (.str "high")) ∧
    ∃ out, sortTasks utcHost sampleTasks = .ok out ∧ out.Perm sampleTasks ∧
      out.Pairwise (fun x y => completedFlag x = completedFlag y →
        ∀ rx ry, rankOf x = some rx → rankOf y = some ry → rx ≠ ry → ry < rx) :=
  have hbool : ∀ t ∈ sampleTasks, ∃ c, prop t "isCompleted" = some (.bool c) := by
    intro t ht
    simp only [sampleTasks, List.mem_cons, List.mem_singleton, List.not_mem_nil, or_false] at ht
    rcases ht with rfl | rfl | rfl | rfl <;> exact ⟨_, rfl⟩
  have hprio : ∀ t ∈ sampleTasks, prop t "priority" = some (.str "low") ∨
      prop t "priority" = some (.str "medium") ∨ prop t "priority" = some (.str "high") := by
    intro t ht
    simp only [sampleTasks, List.mem_cons, List.mem_singleton, List.not_mem_nil, or_false] at ht
    rcases ht with rfl | rfl | rfl | rfl
    · exact Or.inl rfl
    · exact Or.inr (Or.inr rfl)
    · exact Or.inr (Or.inr rfl)
    · exact Or.inr (Or.inl rfl)
  ⟨hbool, hprio, sortTasks_higher_rank_first utcHost sampleTasks hbool hprio⟩

/-- The key of the first three tiers, in dictionary order: completion, rank
from high to low and presence of a due date, then the due date. -/
theorem compareTasks_follows_due (pf : Platform) (a b : JVal) (ca cb : Bool)
    (ra rb x y : Int)
    (ha : prop a "isCompleted" = some (.bool ca)) (hb : prop b "isCompleted" = some (.bool cb))
    (hra : rankOf a = some ra) (hrb : rankOf b = some rb)
    (hra3 : 1 ≤ ra ∧ ra ≤ 3) (hrb3 : 1 ≤ rb ∧ rb ≤ 3)
    (hx : hasDueDate a = true → dueTime pf a = some x)
    (hy : hasDueDate b = true → dueTime pf b = some y) :
    (toLex ((if ca then (8 : Int) else 0) + 2 * (3 - ra) + (if hasDueDate a then 0 else 1),
          if hasDueDate a then x else 0)
        < toLex ((if cb then (8 : Int) else 0) + 2 * (3 - rb)
            + (if hasDueDate b then 0 else 1), if hasDueDate b then y else 0) →
      sortCompare (compareTasks pf a b) ≤ 0) ∧
    (toLex ((if cb then (8 : Int) else 0) + 2 * (3 - rb) + (if hasDueDate b then 0 else 1),
          if hasDueDate b then y else 0)
        < toLex ((if ca then (8 : Int) else 0) + 2 * (3 - ra)
            + (if hasDueDate a then 0 else 1), if hasDueDate a then x else 0) →
      ¬ sortCompare (compareTasks pf a b) ≤ 0) := by
  rw [compareTasks_wf pf a b ca cb ra rb ha hb hra hrb]
  simp only [Prod.Lex.lt_iff]
  by_cases hc : ca = cb
  · subst hc
    rw [if_neg (show ¬ (ca ≠ ca) from fun h => h rfl)]
    by_cases hd : rb - ra = 0
    · rw [if_neg (show ¬ (rb - ra ≠ 0) from fun h => h hd)]
      cases hda : hasDueDate a <;> cases hdb : hasDueDate b
      · simp
        constructor <;> intro hlt <;> omega
      · simp [sortCompare]
        omega
      · simp [sortCompare]
        omega
      · simp [hx hda, hy hdb, subNum, sortCompare]
        constructor <;> intro hlt <;> omega
    · rw [if_pos hd]
      simp only [sortCompare, Option.getD_some]
      constructor <;> intro hlt <;>
        cases hda : hasDueDate a <;> cases hdb : hasDueDate b <;>
        simp [hda, hdb] at hlt <;> omega
  · rw [if_pos (show ca ≠ cb from hc)]
    constructor <;> intro hlt <;>
      cases ca <;> cases cb <;>
      cases hda : hasDueDate a <;> cases hdb : hasDueDate b <;>
      simp [hda, hdb, sortCompare] at hc hlt ⊢ <;> omega

/-- C19: for every list of tasks whose completion is a boolean, whose
priorities are among low, medium and high and whose due dates, where a task
has one, are dates, the output of sortTasks holds the same tasks, and of any
two tasks in it with the same completion state and the same priority the one
without a due date never comes before the one with a due date, and when both
have a due date the earlier one's is not the later date. -/
theorem sortTasks_due_date_order (pf : Platform) (tasks : List JVal)
    (hbool : ∀ t ∈ tasks, ∃ c, prop t "isCompleted" = some (.bool c))
    (hprio : ∀ t ∈ tasks, prop t "priority" = some (.str "low") ∨
      prop t "priority" = some (.str "medium") ∨ prop t "priority" = some (.str "high"))
    (hdue : ∀ t ∈ tasks, hasDueDate t = true → ∃ d, dueTime pf t = some d) :
    ∃ out, sortTasks pf tasks = .ok out ∧ out.Perm tasks ∧
      out.Pairwise (fun x y => completedFlag x = completedFlag y → rankOf x = rankOf y →
        ¬ (hasDueDate x = false ∧ hasDueDate y = true) ∧
        (hasDueDate x = true → hasDueDate y = true →
          ∀ dx dy, dueTime pf x = some dx → dueTime pf y = some dy → dx ≤ dy)) := by
  have hrec : ∀ t ∈ tasks, t ≠ .null := by
    intro t ht
    obtain ⟨c, hc⟩ := hbool t ht
    exact ne_null_of_prop t _ _ hc
  refine ⟨_, sortTasks_eq pf tasks hrec, arraySort_perm _ _, ?_⟩
  have hdue2 : ∀ t ∈ tasks, hasDueDate t = true →
      dueTime pf t = some ((dueTime pf t).getD 0) := by
    intro t ht hd
    obtain ⟨d, hd2⟩ := hdue t ht hd
    rw [hd2]
    rfl
  have hview : ∀ a ∈ tasks, ∀ b ∈ tasks,
      (toLex ((if completedFlag a then (8 : Int) else 0) + 2 * (3 - (rankOf a).getD 0)
            + (if hasDueDate a then 0 else 1),
            if hasDueDate a then (dueTime pf a).getD 0 else 0)
          < toLex ((if completedFlag b then (8 : Int) else 0) + 2 * (3 - (rankOf b).getD 0)
              + (if hasDueDate b then 0 else 1),
              if hasDueDate b then (dueTime pf b).getD 0 else 0) →
        sortCompare (compareTasks pf a b) ≤ 0) ∧
      (toLex ((if completedFlag b then (8 : Int) else 0) + 2 * (3 - (rankOf b).getD 0)
            + (if hasDueDate b then 0 else 1),
            if hasDueDate b then (dueTime pf b).getD 0 else 0)
          < toLex ((if completedFlag a then (8 : Int) else 0) + 2 * (3 - (rankOf a).getD 0)
              + (if hasDueDate a then 0 else 1),
              if hasDueDate a then (dueTime pf a).getD 0 else 0) →
        ¬ sortCompare (compareTasks pf a b) ≤ 0) := by
    intro a ha b hb
    obtain ⟨ca, hca⟩ := hbool a ha
    obtain ⟨cb, hcb⟩ := hbool b hb
    obtain ⟨ra, hra, hra3⟩ := rankOf_of_priority a (hprio a ha)
    obtain ⟨rb, hrb, hrb3⟩ := rankOf_of_priority b (hprio b hb)
    rw [completedFlag_of_bool a ca hca, completedFlag_of_bool b cb hcb, hra, hrb]
    exact compareTasks_follows_due pf a b ca cb ra rb _ _ hca hcb hra hrb hra3 hrb3
      (hdue2 a ha) (hdue2 b hb)
  have hkey := insertionSort_pairwise_key
    (fun a b => sortCompare (compareTasks pf a b) ≤ 0)
    (fun t => toLex ((if completedFlag t then (8 : Int) else 0) + 2 * (3 - (rankOf t).getD 0)
      + (if hasDueDate t then 0 else 1), if hasDueDate t then (dueTime pf t).getD 0 else 0))
    tasks (fun a ha b hb => (hview a ha b hb).1) (fun a ha b hb => (hview a ha b hb).2)
  refine hkey.imp ?_
  intro x y hxy hc hr
  rw [Prod.Lex.le_iff] at hxy
  simp only [hc, hr] at hxy
  constructor
  · rintro ⟨hdx, hdy⟩
    simp only [hdx, hdy] at hxy
    simp at hxy
  · intro hdx hdy dx dy hx hy
    simp only [hdx, hdy, hx, hy, Option.getD_some] at hxy
    simp at hxy
    omega

/-- Witness of C19: three pending high-priority tasks on the UTC host, stored
as no due date, due 10 May, due 3 May.  All three share completion state and
priority, so every pair of the output falls under the claim; the sort moves
the task due 3 May to the front and the task without a due date to the end. -/
theorem sortTasks_due_date_order_witness :
    (∀ t ∈ sameRankTasks, ∃ c, prop t "isCompleted" = some (.bool c)) ∧
    (∀ t ∈ sameRankTasks, prop t "priority" = some (.str "low") ∨
      prop t "priority" = some (.str "medium") ∨ prop t "priority" = some (.str "high")) ∧
    (∀ t ∈ sameRankTasks, hasDueDate t = true → ∃ d, dueTime utcHost t = some d) ∧
    (∀ t ∈ sameRankTasks, completedFlag t = false ∧ rankOf t = some 3) ∧
    sameRankTasks.map hasDueDate = [false, true, true] ∧
    (sameRankTasks.filter hasDueDate).map (dueTime utcHost)
      = [some 1715299200000, some 1714694400000] ∧
    sortTasks utcHost sameRankTasks
      = .ok
        [taskRecord "t3" "Send invites" "work" "high" (some "2024-05-03") false
           "2024-04-30T08:00:00.000Z",
         taskRecord "t2" "Book venue" "work" "high" (some "2024-05-10") false
           "2024-04-29T08:00:00.000Z",
         taskRecord "t1" "Draft agenda" "work" "high" none false "2024-04-28T08:00:00.000Z"] ∧
    ∃ out, sortTasks utcHost sameRankTasks = .ok out ∧ out.Perm sameRankTasks ∧
      out.Pairwise (fun x y => completedFlag x = completedFlag y → rankOf x = rankOf y →
        ¬ (hasDueDate x = false ∧ hasDueDate y = true) ∧
        (hasDueDate x = true → hasDueDate y = true →
          ∀ dx dy, dueTime utcHost x = some dx → dueTime utcHost y = some dy → dx ≤ dy)) :=
  have hbool : ∀ t ∈ sameRankTasks, ∃ c, prop t "isCompleted" = some (.bool c) := by
    intro t ht
    simp only [sameRankTasks, List.mem_cons, List.mem_singleton, List.not_mem_nil,
      or_false] at ht
    rcases ht with rfl | rfl | rfl <;> exact ⟨_, rfl⟩
  have hprio : ∀ t ∈ sameRankTasks, prop t "priority" = some (.str "low") ∨
      prop t "priority" = some (.str "medium") ∨ prop t "priority" = some (.str "high") := by
    intro t ht
    simp only [sameRankTasks, List.mem_cons, List.mem_singleton, List.not_mem_nil,
      or_false] at ht
    rcases ht with rfl | rfl | rfl <;> exact Or.inr (Or.inr rfl)
  have hdue : ∀ t ∈ sameRankTasks, hasDueDate t = true → ∃ d, dueTime utcHost t = some d := by
    intro t ht hd
    simp only [sameRankTasks, List.mem_cons, List.mem_singleton, List.not_mem_nil,
      or_false] at ht
    rcases ht with rfl | rfl | rfl
    · exact absurd hd (by decide)
    · exact ⟨_, rfl⟩
    · exact ⟨_, rfl⟩
  have hsame : ∀ t ∈ sameRankTasks, completedFlag t = false ∧ rankOf t = some 3 := by
    intro t ht
    simp only [sameRankTasks, List.mem_cons, List.mem_singleton, List.not_mem_nil,
      or_false] at ht
    rcases ht with rfl | rfl | rfl <;> exact ⟨rfl, rfl⟩
  ⟨hbool, hprio, hdue, hsame, rfl, rfl, rfl,
    sortTasks_due_date_order utcHost sameRankTasks hbool hprio hdue⟩

/-- C20, the code at the failing input: two pending high-priority tasks with
the same due date, the one created earlier stored first.  The comparator
returns the difference of the due dates as soon as both tasks have one, 0 here,
and never reaches the creation dates; the stable sort leaves the two tasks in
store order, the older one first.  Without a due date the same two tasks come
out newest first. -/
theorem sortTasks_same_due_date_skips_creation_order :
    completedFlag olderTask = completedFlag newerTask ∧
    rankOf olderTask = rankOf newerTask ∧
    dueTime utcHost olderTask = dueTime utcHost newerTask ∧
    createdTime utcHost olderTask = some 1714550400000 ∧
    createdTime utcHost newerTask = some 1714636800000 ∧
    compareTasks utcHost olderTask newerTask = some 0 ∧
    sortTasks utcHost [olderTask, newerTask] = .ok [olderTask, newerTask] ∧
    sortTasks utcHost
        [taskRecord "t1" "Book venue" "work" "high" none false "2024-05-01T08:00:00.000Z",
         taskRecord "t2" "Send invites" "work" "high" none false "2024-05-02T08:00:00.000Z"]
      = .ok
        [taskRecord "t2" "Send invites" "work" "high" none false "2024-05-02T08:00:00.000Z",
         taskRecord "t1" "Book venue" "work" "high" none false "2024-05-01T08:00:00.000Z"] :=
  ⟨rfl, rfl, rfl, rfl, rfl, rfl, rfl, rfl⟩


/-! ## Due-date tests of a task -/

/-- C22, the code at the failing input: on a host five hours behind UTC, at
10:00 local time of 2024-05-01, a pending task due on 2024-05-01.  The due date
is read as midnight UTC, which lies before the local midnight that starts the
day, so the task due today is overdue.  On the UTC host it is not. -/
theorem isTaskOverdue_true_for_task_due_today_west_of_utc :
    prop dueMayFirst "dueDate" = some (.str "2024-05-01") ∧
    toDateString bogota (some (localTime bogota 2024 5 1 10 0)) = civilDay "2024-05-01".toList ∧
    isTaskOverdue bogota (localTime bogota 2024 5 1 10 0) dueMayFirst = .ok true ∧
    isTaskOverdue utcHost (localTime utcHost 2024 5 1 10 0) dueMayFirst = .ok false :=
  ⟨rfl, rfl, rfl, rfl⟩

/-- C23, the code at the failing input: on a host five hours behind UTC, at
10:00 local time of 2024-05-01.  The pending task due on 2024-05-01 is not due
today, because midnight UTC of its due date is 19:00 of 30 April in local time;
the pending task due on 2024-05-02 is due today. -/
theorem isTaskDueToday_off_by_one_day_west_of_utc :
    toDateString bogota (some (localTime bogota 2024 5 1 10 0)) = civilDay "2024-05-01".toList ∧
    isTaskDueToday bogota (localTime bogota 2024 5 1 10 0) dueMayFirst = .ok false ∧
    isTaskDueToday bogota (localTime bogota 2024 5 1 10 0) dueMaySecond = .ok true ∧
    isTaskDueToday utcHost (localTime utcHost 2024 5 1 10 0) dueMayFirst = .ok true :=
  ⟨rfl, rfl, rfl, rfl⟩

/-- C24, the code at the failing input: on a host five hours behind UTC, at
20:00 local time of 2024-05-01, the pending task due the next day is not due
soon: midnight UTC of its due date passed an hour ago, so the difference in
days rounds up to 0.  At 10:00 of the same day it is due soon, and so it is at
20:00 on the UTC host. -/
theorem isTaskDueSoon_false_for_task_due_tomorrow_west_of_utc :
    prop dueMaySecond "dueDate" = some (.str "2024-05-02") ∧
    toDateString bogota (some (localTime bogota 2024 5 1 20 0)) = civilDay "2024-05-01".toList ∧
    isTaskDueSoon bogota (localTime bogota 2024 5 1 20 0) dueMaySecond = .ok false ∧
    isTaskDueSoon bogota (localTime bogota 2024 5 1 10 0) dueMaySecond = .ok true ∧
    isTaskDueSoon utcHost (localTime utcHost 2024 5 1 20 0) dueMaySecond = .ok true :=
  ⟨rfl, rfl, rfl, rfl, rfl⟩

/-- C25, the code at the failing input: on a host five hours behind UTC, at
10:00 local time of 2024-05-01, the pending task due on 2024-05-02 is both due
today and due soon. -/
theorem due_today_and_due_soon_together_west_of_utc :
    isTaskDueToday bogota (localTime bogota 2024 5 1 10 0) dueMaySecond = .ok true ∧
    isTaskDueSoon bogota (localTime bogota 2024 5 1 10 0) dueMaySecond = .ok true ∧
    isTaskOverdue bogota (localTime bogota 2024 5 1 10 0) dueMaySecond = .ok false :=
  ⟨rfl, rfl, rfl⟩

/-! ## Reminders -/

theorem checkEventReminders_eq (pf : Platform) (m : Medium) (listedAt now : Int)
    (events : List JVal) (hget : getEvents m = .arr events)
    (hrec : ∀ e ∈ events, e ≠ .null) :
    checkEventReminders pf m listedAt now
      = .ok (((arraySort (fun a b => subNum (eventDateTime pf a) (eventDateTime pf b))
          (events.filter (isUpcoming pf listedAt))).map (signalsFor pf now)).flatten) := by
  simp only [checkEventReminders, getUpcomingEvents_eq pf m listedAt events hget hrec]

/-- The events that get a reminder in one poll, in the order of the poll. -/
theorem reminded_of_signals (pf : Platform) (now : Int) (l : List JVal) :
    ((l.map (signalsFor pf now)).flatten).filterMap Signal.reminded
      = l.filter (fun e => !truthyU (prop e "isCompleted") && remindsAt pf now e) := by
  induction l with
  | nil => rfl
  | cons e rest ih =>
    simp only [List.map_cons, List.flatten_cons, List.filterMap_append, ih, List.filter_cons]
    unfold signalsFor
    cases hc : truthyU (prop e "isCompleted") <;> cases hr : remindsAt pf now e <;>
      cases ho : overdueAt pf now e <;> simp [Signal.reminded]

/-- The events that get an overdue signal in one poll, in the order of the
poll. -/
theorem overdue_of_signals (pf : Platform) (now : Int) (l : List JVal) :
    ((l.map (signalsFor pf now)).flatten).filterMap Signal.overdueEvent
      = l.filter (fun e => !truthyU (prop e "isCompleted") && overdueAt pf now e) := by
  induction l with
  | nil => rfl
  | cons e rest ih =>
    simp only [List.map_cons, List.flatten_cons, List.filterMap_append, ih, List.filter_cons]
    unfold signalsFor
    cases hc : truthyU (prop e "isCompleted") <;> cases hr : remindsAt pf now e <;>
      cases ho : overdueAt pf now e <;> simp [Signal.overdueEvent]

theorem mem_reminded_iff (out : List Signal) (e : JVal) :
    e ∈ out.filterMap Signal.reminded ↔ Signal.reminder e ∈ out := by
  rw [List.mem_filterMap]
  constructor
  · rintro ⟨s, hs, hse⟩
    cases s with
    | reminder e2 =>
      simp only [Signal.reminded, Option.some.injEq] at hse
      rw [← hse]
      exact hs
    | overdue e2 => simp [Signal.reminded] at hse
  · intro h
    exact ⟨_, h, rfl⟩

theorem mem_overdue_iff (out : List Signal) (e : JVal) :
    e ∈ out.filterMap Signal.overdueEvent ↔ Signal.overdue e ∈ out := by
  rw [List.mem_filterMap]
  constructor
  · rintro ⟨s, hs, hse⟩
    cases s with
    | reminder e2 => simp [Signal.overdueEvent] at hse
    | overdue e2 =>
      simp only [Signal.overdueEvent, Option.some.injEq] at hse
      rw [← hse]
      exact hs
  · intro h
    exact ⟨_, h, rfl⟩

/-- The reminders of a poll are, up to order, the stored events that are
upcoming at the first reading of the clock and whose minute matches at the
second. -/
theorem reminded_perm (pf : Platform) (m : Medium) (listedAt now : Int)
    (events : List JVal) (hget : getEvents m = .arr events)
    (hrec : ∀ e ∈ events, e ≠ .null) :
    ∃ out, checkEventReminders pf m listedAt now = .ok out ∧
      (out.filterMap Signal.reminded).Perm
        (events.filter (fun e => isUpcoming pf listedAt e && remindsAt pf now e)) := by
  refine ⟨_, checkEventReminders_eq pf m listedAt now events hget hrec, ?_⟩
  rw [reminded_of_signals]
  have hperm := (arraySort_perm (fun a b => subNum (eventDateTime pf a) (eventDateTime pf b))
    (events.filter (isUpcoming pf listedAt))).filter
      (fun e => !truthyU (prop e "isCompleted") && remindsAt pf now e)
  refine hperm.trans ?_
  rw [List.filter_filter]
  apply List.Perm.of_eq
  apply List.filter_congr
  intro e _
  unfold isUpcoming
  cases truthyU (prop e "isCompleted") <;> cases remindsAt pf now e <;>
    cases gtNum (eventDateTime pf e) (some listedAt) <;> rfl

theorem remindsAt_iff (pf : Platform) (now : Int) (e : JVal) (T mins : Int)
    (hT : eventDateTime pf e = some T) (hm : prop e "reminderMinutes" = some (.num mins)) :
    remindsAt pf now e = true ↔ (T - now) / 60000 = mins := by
  simp [remindsAt, minutesDiff, hT, hm, subNum, strictEq]

/-- C26: when the stored value is a sequence of records and the clock does not
run backwards between its two readings, the reminders of one poll of
checkEventReminders are, each as often as the store holds the event, the
upcoming events whose minute matches.  For a stored event that is not
completed, is due at T after the poll and has reminderMinutes m, a reminder
fires exactly when floor((T - now) / 60 s) = m: with m = 15 it fires at
T - 15 min and at neither T - 14 min nor T - 16 min.  A completed event gets
no reminder. -/
theorem reminder_fires_on_matching_minute (pf : Platform) (m : Medium) (listedAt now : Int)
    (events : List JVal) (hget : getEvents m = .arr events)
    (hrec : ∀ e ∈ events, e ≠ .null) (hclock : listedAt ≤ now) :
    ∃ out, checkEventReminders pf m listedAt now = .ok out ∧
      (out.filterMap Signal.reminded).Perm
        (events.filter (fun e => isUpcoming pf listedAt e && remindsAt pf now e)) ∧
      (∀ e ∈ events, ∀ T mins, truthyU (prop e "isCompleted") = false →
        eventDateTime pf e = some T → prop e "reminderMinutes" = some (.num mins) → now < T →
        (Signal.reminder e ∈ out ↔ (T - now) / 60000 = mins)) ∧
      (∀ e ∈ events, ∀ T, truthyU (prop e "isCompleted") = false →
        eventDateTime pf e = some T → prop e "reminderMinutes" = some (.num 15) →
        (now = T - 15 * 60000 → Signal.reminder e ∈ out) ∧
        (now = T - 14 * 60000 → Signal.reminder e ∉ out) ∧
        (now = T - 16 * 60000 → Signal.reminder e ∉ out)) ∧
      (∀ e, truthyU (prop e "isCompleted") = true → Signal.reminder e ∉ out) := by
  obtain ⟨out, hout, hperm⟩ := reminded_perm pf m listedAt now events hget hrec
  have hmem : ∀ e, Signal.reminder e ∈ out ↔
      e ∈ events ∧ (isUpcoming pf listedAt e && remindsAt pf now e) = true := by
    intro e
    rw [← mem_reminded_iff, hperm.mem_iff, List.mem_filter]
  have hiff : ∀ e ∈ events, ∀ T mins, truthyU (prop e "isCompleted") = false →
      eventDateTime pf e = some T → prop e "reminderMinutes" = some (.num mins) → now < T →
      (Signal.reminder e ∈ out ↔ (T - now) / 60000 = mins) := by
    intro e he T mins hc hT hm hlt
    have hup : isUpcoming pf listedAt e = true :=
      (isUpcoming_iff pf listedAt e).mpr ⟨hc, T, hT, lt_of_le_of_lt hclock hlt⟩
    rw [hmem e, hup, Bool.true_and, remindsAt_iff pf now e T mins hT hm]
    exact and_iff_right he
  refine ⟨out, hout, hperm, hiff, ?_, ?_⟩
  · intro e he T hc hT hm
    refine ⟨?_, ?_, ?_⟩
    · intro hnow
      exact (hiff e he T 15 hc hT hm (by omega)).mpr (by omega)
    · intro hnow hin
      have h := (hiff e he T 15 hc hT hm (by omega)).mp hin
      omega
    · intro hnow hin
      have h := (hiff e he T 15 hc hT hm (by omega)).mp hin
      omega
  · intro e hc hin
    have h := ((hmem e).mp hin).2
    have hnot : isUpcoming pf listedAt e = false := by
      simp [isUpcoming, hc]
    simp [hnot] at h

/-- Witness of C26: one stored event due at 09:00 with a reminder of 15
minutes, polled at 08:45. -/
theorem reminder_fires_on_matching_minute_witness :
    getEvents (mediumWithEvents [eventRecord "e1" "Standup" "2024-05-01" "09:00" false] true)
      = .arr [eventRecord "e1" "Standup" "2024-05-01" "09:00" false] ∧
    (∀ e ∈ [eventRecord "e1" "Standup" "2024-05-01" "09:00" false], e ≠ .null) ∧
    localTime utcHost 2024 5 1 8 45 ≤ localTime utcHost 2024 5 1 8 45 ∧
    checkEventReminders utcHost
        (mediumWithEvents [eventRecord "e1" "Standup" "2024-05-01" "09:00" false] true)
        (localTime utcHost 2024 5 1 8 45) (localTime utcHost 2024 5 1 8 45)
      = .ok [Signal.reminder (eventRecord "e1" "Standup" "2024-05-01" "09:00" false)] ∧
    ∃ out, checkEventReminders utcHost
        (mediumWithEvents [eventRecord "e1" "Standup" "2024-05-01" "09:00" false] true)
        (localTime utcHost 2024 5 1 8 45) (localTime utcHost 2024 5 1 8 45) = .ok out ∧
      (out.filterMap Signal.reminded).Perm
        ([eventRecord "e1" "Standup" "2024-05-01" "09:00" false].filter
          (fun e => isUpcoming utcHost (localTime utcHost 2024 5 1 8 45) e &&
            remindsAt utcHost (localTime utcHost 2024 5 1 8 45) e)) :=
  have hrec : ∀ e ∈ [eventRecord "e1" "Standup" "2024-05-01" "09:00" false],
      e ≠ JVal.null := by
    intro e he
    simp only [List.mem_singleton] at he
    subst he
    simp [eventRecord]
  have h := reminder_fires_on_matching_minute utcHost
    (mediumWithEvents [eventRecord "e1" "Standup" "2024-05-01" "09:00" false] true)
    (localTime utcHost 2024 5 1 8 45) (localTime utcHost 2024 5 1 8 45)
    [eventRecord "e1" "Standup" "2024-05-01" "09:00" false] rfl hrec (le_refl _)
  ⟨rfl, hrec, le_refl _, rfl, h.elim (fun out hout => ⟨out, hout.1, hout.2.1⟩)⟩

/-- With the clock read once, a poll sends no overdue signal at all: every
event it walks is due after the poll. -/
theorem no_overdue_signal_in_a_poll (pf : Platform) (m : Medium) (now : Int)
    (events : List JVal) (hget : getEvents m = .arr events)
    (hrec : ∀ e ∈ events, e ≠ .null) :
    ∃ out, checkEventReminders pf m now now = .ok out ∧
      out.filterMap Signal.overdueEvent = [] := by
  refine ⟨_, checkEventReminders_eq pf m now now events hget hrec, ?_⟩
  rw [overdue_of_signals, List.filter_eq_nil_iff]
  intro e he
  have hup : isUpcoming pf now e = true :=
    (List.mem_filter.mp ((mem_arraySort _ _ e).mp he)).2
  obtain ⟨_, T, hT, hlt⟩ := (isUpcoming_iff pf now e).mp hup
  have hd : ¬ (T - now) / 60000 < 0 := by
    have : 0 ≤ (T - now) / 60000 := Int.ediv_nonneg (by omega) (by norm_num)
    omega
  simp only [overdueAt, minutesDiff, hT, subNum, Option.map_some']
  norm_num
  intro _ h
  exact absurd h hd

/-- C27, the code at the failing input: one stored pending event due at 09:00,
polled at 09:30 and at 10:30.  The poll walks the result of
getUpcomingEvents(), which at both instants holds no event, so the test for an
overdue event is not run on the stored one: neither poll sends a signal, while
30 minutes after the due time the test itself would pass. -/
theorem overdue_signal_never_sent :
    overdueAt utcHost (localTime utcHost 2024 5 1 9 30)
      (eventRecord "e1" "Standup" "2024-05-01" "09:00" false) = true ∧
    getUpcomingEvents utcHost
        (mediumWithEvents [eventRecord "e1" "Standup" "2024-05-01" "09:00" false] true)
        (localTime utcHost 2024 5 1 9 30) = .ok [] ∧
    checkEventReminders utcHost
        (mediumWithEvents [eventRecord "e1" "Standup" "2024-05-01" "09:00" false] true)
        (localTime utcHost 2024 5 1 9 30) (localTime utcHost 2024 5 1 9 30) = .ok [] ∧
    checkEventReminders utcHost
        (mediumWithEvents [eventRecord "e1" "Standup" "2024-05-01" "09:00" false] true)
        (localTime utcHost 2024 5 1 10 30) (localTime utcHost 2024 5 1 10 30) = .ok [] :=
  ⟨rfl, rfl, rfl, rfl⟩

/-! ## Task order: permutation and idempotence -/

/-- C29: for every list of task records, the output of sortTasks is a
permutation of its input: the same tasks, each as often as the input holds
it, and so of the same length. -/
theorem sortTasks_is_permutation (pf : Platform) (tasks : List JVal)
    (hrec : ∀ t ∈ tasks, t ≠ .null) :
    ∃ out, sortTasks pf tasks = .ok out ∧ out.Perm tasks ∧ out.length = tasks.length ∧
      ∀ t, t ∈ out ↔ t ∈ tasks :=
  ⟨_, sortTasks_eq pf tasks hrec, arraySort_perm _ _, (arraySort_perm _ _).length_eq,
    fun t => mem_arraySort _ _ t⟩

/-- Witness of C29: the four sample tasks. -/
theorem sortTasks_is_permutation_witness :
    (∀ t ∈ sampleTasks, t ≠ .null) ∧
    ∃ out, sortTasks utcHost sampleTasks = .ok out ∧ out.Perm sampleTasks ∧
      out.length = sampleTasks.length ∧ ∀ t, t ∈ out ↔ t ∈ sampleTasks :=
  have hrec : ∀ t ∈ sampleTasks, t ≠ JVal.null := by
    intro t ht
    simp only [sampleTasks, List.mem_cons, List.mem_singleton, List.not_mem_nil, or_false] at ht
    rcases ht with rfl | rfl | rfl | rfl <;> simp [taskRecord]
  ⟨hrec, sortTasks_is_permutation utcHost sampleTasks hrec⟩

/-- The key of the whole comparator, in dictionary order: completion, rank
from high to low and presence of a due date; then the due date, or for tasks
without one the creation date from new to old. -/
theorem compareTasks_follows_key (pf : Platform) (a b : JVal) (ca cb : Bool)
    (ra rb x y : Int)
    (ha : prop a "isCompleted" = some (.bool ca)) (hb : prop b "isCompleted" = some (.bool cb))
    (hra : rankOf a = some ra) (hrb : rankOf b = some rb)
    (hra3 : 1 ≤ ra ∧ ra ≤ 3) (hrb3 : 1 ≤ rb ∧ rb ≤ 3)
    (hx : if hasDueDate a then dueTime pf a = some x else createdTime pf a = some (-x))
    (hy : if hasDueDate b then dueTime pf b = some y else createdTime pf b = some (-y)) :
    (toLex ((if ca then (8 : Int) else 0) + 2 * (3 - ra) + (if hasDueDate a then 0 else 1), x)
        < toLex ((if cb then (8 : Int) else 0) + 2 * (3 - rb)
            + (if hasDueDate b then 0 else 1), y) →
      sortCompare (compareTasks pf a b) ≤ 0) ∧
    (toLex ((if cb then (8 : Int) else 0) + 2 * (3 - rb) + (if hasDueDate b then 0 else 1), y)
        < toLex ((if ca then (8 : Int) else 0) + 2 * (3 - ra)
            + (if hasDueDate a then 0 else 1), x) →
      ¬ sortCompare (compareTasks pf a b) ≤ 0) ∧
    (toLex ((if ca then (8 : Int) else 0) + 2 * (3 - ra) + (if hasDueDate a then 0 else 1), x)
        = toLex ((if cb then (8 : Int) else 0) + 2 * (3 - rb)
            + (if hasDueDate b then 0 else 1), y) →
      sortCompare (compareTasks pf a b) ≤ 0) := by
  rw [compareTasks_wf pf a b ca cb ra rb ha hb hra hrb]
  simp only [Prod.Lex.lt_iff, EmbeddingLike.apply_eq_iff_eq, Prod.mk.injEq]
  by_cases hc : ca = cb
  · subst hc
    rw [if_neg (show ¬ (ca ≠ ca) from fun h => h rfl)]
    by_cases hd : rb - ra = 0
    · rw [if_neg (show ¬ (rb - ra ≠ 0) from fun h => h hd)]
      cases hda : hasDueDate a <;> cases hdb : hasDueDate b <;>
        simp only [hda, hdb, if_true, if_false, Bool.false_eq_true] at hx hy
      · simp [hx, hy, subNum, sortCompare]
        refine ⟨?_, ?_, ?_⟩ <;> intro hlt <;> omega
      · simp [sortCompare]
        omega
      · simp [sortCompare]
        omega
      · simp [hx, hy, subNum, sortCompare]
        refine ⟨?_, ?_, ?_⟩ <;> intro hlt <;> omega
    · rw [if_pos hd]
      simp only [sortCompare, Option.getD_some]
      refine ⟨?_, ?_, ?_⟩ <;> intro hlt <;>
        cases hda : hasDueDate a <;> cases hdb : hasDueDate b <;>
        simp [hda, hdb] at hlt <;> omega
  · rw [if_pos (show ca ≠ cb from hc)]
    refine ⟨?_, ?_, ?_⟩ <;> intro hlt <;>
      cases ca <;> cases cb <;>
      cases hda : hasDueDate a <;> cases hdb : hasDueDate b <;>
      simp [hda, hdb, sortCompare] at hc hlt ⊢ <;> omega

/-- C21: for every list of tasks whose completion is a boolean, whose
priorities are among low, medium and high, whose due dates, where a task has
one, are dates and whose creation timestamps are dates, sorting the output of
sortTasks again returns the identical sequence. -/
theorem sortTasks_idempotent (pf : Platform) (tasks : List JVal)
    (hbool : ∀ t ∈ tasks, ∃ c, prop t "isCompleted" = some (.bool c))
    (hprio : ∀ t ∈ tasks, prop t "priority" = some (.str "low") ∨
      prop t "priority" = some (.str "medium") ∨ prop t "priority" = some (.str "high"))
    (hdue : ∀ t ∈ tasks, hasDueDate t = true → ∃ d, dueTime pf t = some d)
    (hcreated : ∀ t ∈ tasks, ∃ u, createdTime pf t = some u) :
    ∃ out, sortTasks pf tasks = .ok out ∧ sortTasks pf out = .ok out := by
  have hrec : ∀ t ∈ tasks, t ≠ .null := by
    intro t ht
    obtain ⟨c, hc⟩ := hbool t ht
    exact ne_null_of_prop t _ _ hc
  have hrec2 : ∀ t ∈ arraySort (compareTasks pf) tasks, t ≠ .null :=
    fun t ht => hrec t ((mem_arraySort _ _ t).mp ht)
  refine ⟨_, sortTasks_eq pf tasks hrec, ?_⟩
  rw [sortTasks_eq pf _ hrec2]
  congr 1
  have hsecond : ∀ t ∈ tasks,
      if hasDueDate t then dueTime pf t
          = some (if hasDueDate t then (dueTime pf t).getD 0 else -((createdTime pf t).getD 0))
        else createdTime pf t
          = some (-(if hasDueDate t then (dueTime pf t).getD 0
              else -((createdTime pf t).getD 0))) := by
    intro t ht
    cases hd : hasDueDate t
    · obtain ⟨u, hu⟩ := hcreated t ht
      simp [hu]
    · obtain ⟨d, hd2⟩ := hdue t ht hd
      simp [hd2]
  have hview : ∀ a ∈ tasks, ∀ b ∈ tasks,
      (toLex ((if completedFlag a then (8 : Int) else 0) + 2 * (3 - (rankOf a).getD 0)
            + (if hasDueDate a then 0 else 1),
            if hasDueDate a then (dueTime pf a).getD 0 else -((createdTime pf a).getD 0))
          < toLex ((if completedFlag b then (8 : Int) else 0) + 2 * (3 - (rankOf b).getD 0)
              + (if hasDueDate b then 0 else 1),
              if hasDueDate b then (dueTime pf b).getD 0 else -((createdTime pf b).getD 0)) →
        sortCompare (compareTasks pf a b) ≤ 0) ∧
      (toLex ((if completedFlag b then (8 : Int) else 0) + 2 * (3 - (rankOf b).getD 0)
            + (if hasDueDate b then 0 else 1),
            if hasDueDate b then (dueTime pf b).getD 0 else -((createdTime pf b).getD 0))
          < toLex ((if completedFlag a then (8 : Int) else 0) + 2 * (3 - (rankOf a).getD 0)
              + (if hasDueDate a then 0 else 1),
              if hasDueDate a then (dueTime pf a).getD 0 else -((createdTime pf a).getD 0)) →
        ¬ sortCompare (compareTasks pf a b) ≤ 0) ∧
      (toLex ((if completedFlag a then (8 : Int) else 0) + 2 * (3 - (rankOf a).getD 0)
            + (if hasDueDate a then 0 else 1),
            if hasDueDate a then (dueTime pf a).getD 0 else -((createdTime pf a).getD 0))
          = toLex ((if completedFlag b then (8 : Int) else 0) + 2 * (3 - (rankOf b).getD 0)
              + (if hasDueDate b then 0 else 1),
              if hasDueDate b then (dueTime pf b).getD 0 else -((createdTime pf b).getD 0)) →
        sortCompare (compareTasks pf a b) ≤ 0) := by
    intro a ha b hb
    obtain ⟨ca, hca⟩ := hbool a ha
    obtain ⟨cb, hcb⟩ := hbool b hb
    obtain ⟨ra, hra, hra3⟩ := rankOf_of_priority a (hprio a ha)
    obtain ⟨rb, hrb, hrb3⟩ := rankOf_of_priority b (hprio b hb)
    rw [completedFlag_of_bool a ca hca, completedFlag_of_bool b cb hcb, hra, hrb]
    exact compareTasks_follows_key pf a b ca cb ra rb _ _ hca hcb hra hrb hra3 hrb3
      (hsecond a ha) (hsecond b hb)
  have hkey := insertionSort_pairwise_key
    (fun a b => sortCompare (compareTasks pf a b) ≤ 0)
    (fun t => toLex ((if completedFlag t then (8 : Int) else 0) + 2 * (3 - (rankOf t).getD 0)
      + (if hasDueDate t then 0 else 1),
      if hasDueDate t then (dueTime pf t).getD 0 else -((createdTime pf t).getD 0)))
    tasks (fun a ha b hb => (hview a ha b hb).1) (fun a ha b hb => (hview a ha b hb).2.1)
  have hsorted : (arraySort (compareTasks pf) tasks).Pairwise
      (fun a b => sortCompare (compareTasks pf a b) ≤ 0) := by
    refine hkey.imp_of_mem ?_
    intro x y hx hy hxy
    have hx2 : x ∈ tasks := (mem_arraySort _ _ x).mp hx
    have hy2 : y ∈ tasks := (mem_arraySort _ _ y).mp hy
    rcases lt_or_eq_of_le hxy with hlt | heq
    · exact (hview x hx2 y hy2).1 hlt
    · exact (hview x hx2 y hy2).2.2 heq
  exact List.Sorted.insertionSort_eq hsorted

/-- Witness of C21: the four sample tasks on the UTC host. -/
theorem sortTasks_idempotent_witness :
    (∀ t ∈ sampleTasks, ∃ c, prop t "isCompleted" = some (.bool c)) ∧
    (∀ t ∈ sampleTasks, prop t "priority" = some (.str "low") ∨
      prop t "priority" = some (.str "medium") ∨ prop t "priority" = some (.str "high")) ∧
    (∀ t ∈ sampleTasks, hasDueDate t = true → ∃ d, dueTime utcHost t = some d) ∧
    (∀ t ∈ sampleTasks, ∃ u, createdTime utcHost t = some u) ∧
    ∃ out, sortTasks utcHost sampleTasks = .ok out ∧ sortTasks utcHost out = .ok out :=
  have hbool : ∀ t ∈ sampleTasks, ∃ c, prop t "isCompleted" = some (.bool c) := by
    intro t ht
    simp only [sampleTasks, List.mem_cons, List.mem_singleton, List.not_mem_nil, or_false] at ht
    rcases ht with rfl | rfl | rfl | rfl <;> exact ⟨_, rfl⟩
  have hprio : ∀ t ∈ sampleTasks, prop t "priority" = some (.str "low") ∨
      prop t "priority" = some (.str "medium") ∨ prop t "priority" = some (.str "high") := by
    intro t ht
    simp only [sampleTasks, List.mem_cons, List.mem_singleton, List.not_mem_nil, or_false] at ht
    rcases ht with rfl | rfl | rfl | rfl
    · exact Or.inl rfl
    · exact Or.inr (Or.inr rfl)
    · exact Or.inr (Or.inr rfl)
    · exact Or.inr (Or.inl rfl)
  have hdue : ∀ t ∈ sampleTasks, hasDueDate t = true → ∃ d, dueTime utcHost t = some d := by
    intro t ht _
    simp only [sampleTasks, List.mem_cons, List.mem_singleton, List.not_mem_nil, or_false] at ht
    rcases ht with rfl | rfl | rfl | rfl <;> exact ⟨_, rfl⟩
  have hcreated : ∀ t ∈ sampleTasks, ∃ u, createdTime utcHost t = some u := by
    intro t ht
    simp only [sampleTasks, List.mem_cons, List.mem_singleton, List.not_mem_nil, or_false] at ht
    rcases ht with rfl | rfl | rfl | rfl <;> exact ⟨_, rfl⟩
  ⟨hbool, hprio, hdue, hcreated,
    sortTasks_idempotent utcHost sampleTasks hbool hprio hdue hcreated⟩

/-! ## Completion toggle -/

theorem findFirst_split (p : JVal → Except JsError Bool) (pre post : List JVal) (r : JVal)
    (hpre : ∀ x ∈ pre, p x = .ok false) (hr : p r = .ok true) :
    findFirst p (pre ++ r :: post) = .ok (some r) := by
  induction pre with
  | nil => simp [findFirst, hr]
  | cons x rest ih =>
    have hx : p x = .ok false := hpre x (List.mem_cons_self _ _)
    rw [List.cons_append, findFirst, hx]
    exact ih (fun y hy => hpre y (List.mem_cons_of_mem _ hy))

/-- The patch of the toggle read back key by key. -/
theorem getProp_completionPatch (task : JVal) (timestamp : String) :
    getProp (completionPatch task timestamp) "isCompleted"
      = some (.bool (!completedFlag task)) ∧
    getProp (completionPatch task timestamp) "completedDate"
      = some (if completedFlag task then .null else .str timestamp) ∧
    ∀ k, k ≠ "isCompleted" → k ≠ "completedDate" →
      getProp (completionPatch task timestamp) k = none := by
  refine ⟨rfl, ?_, ?_⟩
  · unfold completedFlag completionPatch
    cases truthyU (prop task "isCompleted") <;> rfl
  · intro k h1 h2
    have h3 : ¬ "isCompleted" = k := fun h => h1 h.symm
    have h4 : ¬ "completedDate" = k := fun h => h2 h.symm
    simp [completionPatch, getProp, h3, h4]

/-- The toggle on a sequence split at the first task with the identifier: one
save of the sequence with that task patched. -/
theorem toggleTaskCompletion_at_split (m : Medium) (id : JVal) (timestamp : String)
    (pre post : List JVal) (r : List (String × JVal))
    (hget : getTasks m = .arr (pre ++ .obj r :: post))
    (hpre : ∀ x ∈ pre, hasId x id = .ok false) (hr : hasId (.obj r) id = .ok true) :
    toggleTaskCompletion m id timestamp
      = .ok (some (saveToStorage m .TASKS (.arr (pre ++
            .obj (spread r (completionPatch (.obj r) timestamp)) :: post))).1,
          (saveToStorage m .TASKS (.arr (pre ++
            .obj (spread r (completionPatch (.obj r) timestamp)) :: post))).2) := by
  have hfind : getTaskById m id = .ok (some (.obj r)) := by
    simp only [getTaskById, hget]
    exact findFirst_split _ pre post (.obj r) hpre hr
  have hupd := update_at_split .tasks m id
    (.obj (completionPatch (.obj r) timestamp)) pre post (.obj r) hget hpre hr
  have hupd2 : updateTask m id (.obj (completionPatch (.obj r) timestamp))
      = .ok (saveToStorage m .TASKS (.arr (pre ++
          .obj (spread r (completionPatch (.obj r) timestamp)) :: post))) := hupd
  simp only [toggleTaskCompletion, hfind, truthyU, truthy, if_true, Option.getD_some, hupd2]

/-- C28, as stated, fails: on a medium that rejects the write the toggle leaves
the task as it was, not completed and without a completion date. -/
theorem toggleTaskCompletion_rejected :
    carries dueMayFirst (.str "t1") = true ∧
    completedFlag dueMayFirst = false ∧
    toggleTaskCompletion (mediumWithTasks [dueMayFirst] false) (.str "t1")
        "2024-05-01T10:00:00.000Z"
      = .ok (some false, mediumWithTasks [dueMayFirst] false) ∧
    getTasks (mediumWithTasks [dueMayFirst] false) = .arr [dueMayFirst] :=
  ⟨rfl, rfl, rfl, rfl⟩

/-- C28, amended: when the stored value is a sequence of task records one of
which carries the identifier, the sequence splits as `pre ++ r :: post` at the
first such task `r`, and the toggle writes `pre ++ toggled :: post`.  In
`toggled` isCompleted is the negation of the completion of `r`, completedDate is
the timestamp when `r` was not completed and `null` when it was, and every
other key reads as in `r`.  When the medium accepts the write getTasks() reads
the new sequence; when it rejects the write it reads the old one. -/
theorem toggleTaskCompletion_flips (m : Medium) (id : JVal) (timestamp : String)
    (xs : List JVal) (hget : getTasks m = .arr xs) (hrec : ∀ x ∈ xs, x ≠ .null)
    (hex : ∃ x ∈ xs, carries x id = true) :
    ∃ pre r post toggled, xs = pre ++ .obj r :: post ∧
      (∀ x ∈ pre, carries x id = false) ∧ carries (.obj r) id = true ∧
      getProp toggled "isCompleted" = some (.bool (!completedFlag (.obj r))) ∧
      getProp toggled "completedDate"
        = some (if completedFlag (.obj r) then .null else .str timestamp) ∧
      (∀ k, k ≠ "isCompleted" → k ≠ "completedDate" → getProp toggled k = getProp r k) ∧
      ∃ m', toggleTaskCompletion m id timestamp
          = .ok (some (m.accepts .TASKS (.arr (pre ++ .obj toggled :: post))), m') ∧
        getTasks m' = .arr (if m.accepts .TASKS (.arr (pre ++ .obj toggled :: post))
          then pre ++ .obj toggled :: post else xs) := by
  obtain ⟨pre, r0, post, hsplit, hpre, hr0⟩ := exists_first_carrier id xs hex
  obtain ⟨r, rfl⟩ := obj_of_carries r0 id hr0
  have hpatch := getProp_completionPatch (.obj r) timestamp
  refine ⟨pre, r, post, spread r (completionPatch (.obj r) timestamp), hsplit, hpre, hr0,
    ?_, ?_, ?_, ?_⟩
  · rw [getProp_spread, hpatch.1]
  · rw [getProp_spread, hpatch.2.1]
  · intro k h1 h2
    rw [getProp_spread, hpatch.2.2 k h1 h2]
  · have hpre2 : ∀ x ∈ pre, hasId x id = .ok false := by
      intro x hx
      have hmem : x ∈ xs := by rw [hsplit]; exact List.mem_append_left _ hx
      rw [hasId_of_ne_null x id (hrec x hmem), hpre x hx]
    have hr2 : hasId (.obj r) id = .ok true := by
      rw [hasId_of_ne_null _ id (by simp), hr0]
    rw [toggleTaskCompletion_at_split m id timestamp pre post r (by rw [hget, hsplit])
      hpre2 hr2]
    cases hacc : m.accepts .TASKS
        (.arr (pre ++ .obj (spread r (completionPatch (.obj r) timestamp)) :: post))
    · refine ⟨m, by rw [saveToStorage_rejected m _ _ hacc], ?_⟩
      simpa using hget
    · refine ⟨m.setSlot .TASKS
          (.doc (.arr (pre ++ .obj (spread r (completionPatch (.obj r) timestamp)) :: post))),
        by rw [saveToStorage_accepted m _ _ hacc], ?_⟩
      have h := get_after_write .tasks m
        (.arr (pre ++ .obj (spread r (completionPatch (.obj r) timestamp)) :: post)) rfl
      simpa [get, Collection.key] using h

/-- Witness of C28 amended: completing the second of two stored tasks on a
medium that accepts the write. -/
theorem toggleTaskCompletion_flips_witness :
    getTasks (mediumWithTasks [dueMayFirst, dueMaySecond] true)
      = .arr [dueMayFirst, dueMaySecond] ∧
    (∀ x ∈ [dueMayFirst, dueMaySecond], x ≠ .null) ∧
    (∃ x ∈ [dueMayFirst, dueMaySecond], carries x (.str "t2") = true) ∧
    ∃ pre r post toggled, [dueMayFirst, dueMaySecond] = pre ++ .obj r :: post ∧
      (∀ x ∈ pre, carries x (.str "t2") = false) ∧ carries (.obj r) (.str "t2") = true ∧
      getProp toggled "isCompleted" = some (.bool (!completedFlag (.obj r))) ∧
      getProp toggled "completedDate"
        = some (if completedFlag (.obj r) then .null else .str "2024-05-01T10:00:00.000Z") ∧
      (∀ k, k ≠ "isCompleted" → k ≠ "completedDate" → getProp toggled k = getProp r k) ∧
      ∃ m', toggleTaskCompletion (mediumWithTasks [dueMayFirst, dueMaySecond] true)
            (.str "t2") "2024-05-01T10:00:00.000Z"
          = .ok (some true, m') ∧
        getTasks m' = .arr (if true then pre ++ .obj toggled :: post
          else [dueMayFirst, dueMaySecond]) :=
  have hrec : ∀ x ∈ [dueMayFirst, dueMaySecond], x ≠ JVal.null := by
    intro x hx
    simp only [List.mem_cons, List.mem_singleton, List.not_mem_nil, or_false] at hx
    rcases hx with rfl | rfl <;> simp [dueMayFirst, dueMaySecond, taskRecord]
  have hex : ∃ x ∈ [dueMayFirst, dueMaySecond], carries x (.str "t2") = true :=
    ⟨dueMaySecond, List.mem_cons_of_mem _ (List.mem_cons_self _ _), rfl⟩
  ⟨rfl, hrec, hex,
    toggleTaskCompletion_flips (mediumWithTasks [dueMayFirst, dueMaySecond] true) (.str "t2")
      "2024-05-01T10:00:00.000Z" [dueMayFirst, dueMaySecond] rfl hrec hex⟩

/-! ## Theme toggle -/

theorem getProp_settingsPatch (app : SchedulerApp) :
    getProp app.settingsPatch "theme" = some app.theme ∧
    getProp app.settingsPatch "lastModule" = some (.str app.currentModule) ∧
    getProp app.settingsPatch "notifications" = some (.bool true) ∧
    ∀ k, k ≠ "theme" → k ≠ "lastModule" → k ≠ "notifications" →
      getProp app.settingsPatch k = none := by
  refine ⟨rfl, rfl, rfl, ?_⟩
  intro k h1 h2 h3
  have h4 : ¬ "theme" = k := fun h => h1 h.symm
  have h5 : ¬ "lastModule" = k := fun h => h2 h.symm
  have h6 : ¬ "notifications" = k := fun h => h3 h.symm
  simp [SchedulerApp.settingsPatch, getProp, h4, h5, h6]

theorem toggleTheme_eq (app : SchedulerApp) (m : Medium) :
    app.toggleTheme m
      = ({ app with theme := flippedTheme app.theme },
          saveToStorage m .SETTINGS
            (.obj (SchedulerApp.mergedSettings { app with theme := flippedTheme app.theme } m)))
    := rfl

/-- C30, as stated, fails: on a medium that rejects the write the theme of the
application flips to dark, and the persisted settings stay as they were, theme
light and notifications off. -/
theorem toggleTheme_rejected :
    (SchedulerApp.toggleTheme { theme := .str "light", currentModule := "calendar" }
        (mediumWithSettings quietSettings false)).1.theme = .str "dark" ∧
    (SchedulerApp.toggleTheme { theme := .str "light", currentModule := "calendar" }
        (mediumWithSettings quietSettings false)).2
      = (false, mediumWithSettings quietSettings false) ∧
    getSettings (mediumWithSettings quietSettings false) = quietSettings ∧
    prop quietSettings "theme" = some (.str "light") ∧
    prop quietSettings "notifications" = some (.bool false) :=
  ⟨rfl, rfl, rfl, rfl, rfl⟩

/-- C30, amended: toggleTheme sets the theme of the application to dark when
it was light and to light otherwise, so that from light or dark two toggles
restore it, and saves the stored settings with `theme` (the new theme),
`lastModule` (the current module) and `notifications` (true) written over
them; every other key of the merge reads as stored.  The save returns what the
medium answers: accepted, getSettings() then reads the merge, a stored
notifications=false included; rejected, getSettings() reads what it read
before. -/
theorem toggleTheme_saves_merge (app : SchedulerApp) (m : Medium) :
    (app.toggleTheme m).1.theme = flippedTheme app.theme ∧
    (app.toggleTheme m).1.currentModule = app.currentModule ∧
    (app.theme = .str "light" → flippedTheme app.theme = .str "dark") ∧
    (app.theme = .str "dark" → flippedTheme app.theme = .str "light") ∧
    (app.theme = .str "light" ∨ app.theme = .str "dark" →
      flippedTheme (flippedTheme app.theme) = app.theme) ∧
    getProp ((app.toggleTheme m).1.mergedSettings m) "theme" = some (flippedTheme app.theme) ∧
    getProp ((app.toggleTheme m).1.mergedSettings m) "lastModule"
      = some (.str app.currentModule) ∧
    getProp ((app.toggleTheme m).1.mergedSettings m) "notifications" = some (.bool true) ∧
    (∀ k, k ≠ "theme" → k ≠ "lastModule" → k ≠ "notifications" →
      getProp ((app.toggleTheme m).1.mergedSettings m) k
        = getProp (ownProps (getSettings m)) k) ∧
    (app.toggleTheme m).2.1
      = m.accepts .SETTINGS (.obj ((app.toggleTheme m).1.mergedSettings m)) ∧
    getSettings (app.toggleTheme m).2.2
      = (if m.accepts .SETTINGS (.obj ((app.toggleTheme m).1.mergedSettings m))
          then .obj ((app.toggleTheme m).1.mergedSettings m) else getSettings m) := by
  have hpatch := getProp_settingsPatch { app with theme := flippedTheme app.theme }
  rw [toggleTheme_eq]
  refine ⟨rfl, rfl, ?_, ?_, ?_, ?_, ?_, ?_, ?_, ?_, ?_⟩
  · intro h
    rw [h]
    rfl
  · intro h
    rw [h]
    rfl
  · rintro (h | h) <;> rw [h] <;> rfl
  · simp only [SchedulerApp.mergedSettings]
    rw [getProp_spread, hpatch.1]
  · simp only [SchedulerApp.mergedSettings]
    rw [getProp_spread, hpatch.2.1]
  · simp only [SchedulerApp.mergedSettings]
    rw [getProp_spread, hpatch.2.2.1]
  · intro k h1 h2 h3
    simp only [SchedulerApp.mergedSettings]
    rw [getProp_spread, hpatch.2.2.2 k h1 h2 h3]
  · cases hacc : m.accepts .SETTINGS
        (.obj (SchedulerApp.mergedSettings { app with theme := flippedTheme app.theme } m))
    · rw [saveToStorage_rejected m _ _ hacc]
    · rw [saveToStorage_accepted m _ _ hacc]
  · cases hacc : m.accepts .SETTINGS
        (.obj (SchedulerApp.mergedSettings { app with theme := flippedTheme app.theme } m))
    · rw [saveToStorage_rejected m _ _ hacc]
      simp
    · rw [saveToStorage_accepted m _ _ hacc]
      simp only [if_true]
      exact getSettings_of_slot _ _ rfl rfl

end Timely
